import Mathlib

/-!
Verification of the three-phase timetable generator (`schedule_base.py`,
`schedule_generator.py`, `phase2_mandatory.py`, `phase3_optimization.py`).

The Python code is shallowly embedded: dataclasses become structures, the
mutable `Schedule` becomes a list of lessons threaded through the placement
functions, the Phase-2 occupancy caches (dictionaries keyed by teacher name /
class label / classroom number, with time slots as inner keys) are rendered by
the equivalent membership queries over the current lesson list — a slot is a
key of `_teacher_schedule[name]` exactly when some lesson of the current
schedule has that teacher name and slot, because the cache is built from the
schedule and updated on every insertion.  Scores are rational numbers (the
Python floats only ever hold sums of the integer constants, thirds and
fiftieths appearing in the code, so `ℚ` is exact).  The random draws of
Phase 1 (slot jitter) and Phase 3 (lesson sampling, Metropolis draws) are
passed in as explicit parameters, ranging over every outcome the Python
random generator can produce.
-/

namespace Raspisanie

/-- Weekday enumeration (`DayOfWeek` in `schedule_base.py`). -/
inductive DayOfWeek where
  | monday
  | tuesday
  | wednesday
  | thursday
  | friday
deriving DecidableEq

/-- Iteration order `for day in DayOfWeek`. -/
def DayOfWeek.all : List DayOfWeek :=
  [.monday, .tuesday, .wednesday, .thursday, .friday]

/-- `TimeSlot` : a weekday together with a period number (1–7 in the grid). -/
structure TimeSlot where
  day : DayOfWeek
  lessonNumber : Nat
deriving DecidableEq

/-- `Classroom` dataclass; equality compares all fields, as Python's
generated `__eq__` does. -/
structure Classroom where
  number : String
  capacity : Nat
  floor : Nat
  responsibleTeacher : Option String := none
deriving DecidableEq

/-- `Teacher` dataclass.  The Python `unavailable_days` set is modelled as a
list queried only through membership. -/
structure Teacher where
  name : String
  subjects : List String := []
  homeClassroom : Option String := none
  unavailableDays : List DayOfWeek := []
deriving DecidableEq

/-- `Teacher.is_available`: the teacher can work on `day` iff the day is not
in the unavailable set. -/
def Teacher.isAvailable (t : Teacher) (day : DayOfWeek) : Bool :=
  !(t.unavailableDays.contains day)

/-- `Student` dataclass. -/
structure Student where
  name : String
  className : String
  egeSubjects : List String := []
deriving DecidableEq

/-- `SubjectType` enum. -/
inductive SubjectType where
  | mandatory
  | egePractice
  | elective
deriving DecidableEq

/-- `Subject` dataclass (a weekly requirement: subject name, type, hours,
one teacher, the cohorts it serves). -/
structure Subject where
  name : String
  subjectType : SubjectType
  hoursPerWeek : Nat
  teacher : Teacher
  classes : List String := []
  isGrouped : Bool := false
  groups : List String := []
deriving DecidableEq

/-- `EGEPracticeGroup` dataclass. -/
structure EGEPracticeGroup where
  subject : String
  teacher : Teacher
  students : List Student := []
  hoursPerWeek : Nat := 3
deriving DecidableEq

/-- `Lesson` dataclass.  `timeSlot` is the only field Phase 3 mutates. -/
structure Lesson where
  subject : String
  teacher : Teacher
  classOrGroup : String
  classroom : Option Classroom
  timeSlot : TimeSlot
  isEgePractice : Bool := false
  students : List Student := []
deriving DecidableEq

/-- `Schedule` dataclass: an ordered collection of lessons (Python list). -/
structure Schedule where
  lessons : List Lesson := []
deriving DecidableEq

/-- `Schedule.add_lesson` appends. -/
def Schedule.addLesson (s : Schedule) (l : Lesson) : Schedule :=
  ⟨s.lessons ++ [l]⟩

/-- `Schedule.is_classroom_busy`: some lesson occupies exactly this classroom
value at the slot (Python compares the `Optional[Classroom]` field with a
`Classroom` object, so a `None` field never matches). -/
def Schedule.isClassroomBusy (s : Schedule) (c : Classroom) (slot : TimeSlot) : Bool :=
  s.lessons.any (fun l => decide (l.classroom = some c) && decide (l.timeSlot = slot))

/-- Membership view of the Phase-2 cache `_teacher_schedule[name]`: `slot` is
a key iff some current lesson has this teacher name at this slot. -/
def teacherBusyName (s : Schedule) (name : String) (slot : TimeSlot) : Bool :=
  s.lessons.any (fun l => decide (l.teacher.name = name) && decide (l.timeSlot = slot))

/-- Membership view of the Phase-2 cache `_class_schedule[label]`. -/
def classBusyLabel (s : Schedule) (label : String) (slot : TimeSlot) : Bool :=
  s.lessons.any (fun l => decide (l.classOrGroup = label) && decide (l.timeSlot = slot))

/-- Membership view of the Phase-2 cache `_classroom_schedule[number]`
(keyed by room number). -/
def classroomBusyNumber (s : Schedule) (num : String) (slot : TimeSlot) : Bool :=
  s.lessons.any (fun l =>
    match l.classroom with
    | some c => decide (c.number = num) && decide (l.timeSlot = slot)
    | none => false)

/-! ## Phase 1 (`schedule_generator.py`) -/

/-- The full 5×7 slot grid, in the iteration order of
`ScheduleGenerator.all_time_slots`. -/
def allSlots : List TimeSlot :=
  DayOfWeek.all.flatMap (fun d => (List.range 7).map (fun i => ⟨d, i + 1⟩))

/-- `ScheduleGenerator.evaluate_ege_slot`.  `teachers` is
`loader.teachers.values()` in iteration order and `jitter` the draw of
`random.uniform(-5, 5)`. -/
def evaluateEgeSlot (teachers : List Teacher) (slot : TimeSlot) (jitter : ℚ) : ℚ :=
  let score : ℚ := 100
  let score :=
    if slot.lessonNumber = 1 then score - 30
    else if slot.lessonNumber = 7 then score - 20
    else if 2 ≤ slot.lessonNumber ∧ slot.lessonNumber ≤ 4 then score + 20
    else score
  let availableTeachers : Nat := (teachers.filter (fun t => t.isAvailable slot.day)).length
  let availFrac : ℚ := (availableTeachers : ℚ) / (teachers.length : ℚ)
  score + availFrac * 50 + jitter

/-- Head of the Python stable sort by capacity: the leftmost classroom of
minimal capacity (`available_classrooms.sort(key=lambda c: c.capacity)`
followed by `[0]`). -/
def pickSmallest : List Classroom → Option Classroom
  | [] => none
  | c :: cs =>
    match pickSmallest cs with
    | none => some c
    | some d => if c.capacity ≤ d.capacity then some c else some d

/-- `ScheduleGenerator.find_available_classroom`: among the free classrooms
with sufficient capacity, the one of least capacity; `none` if no classroom
fits. -/
def findAvailableClassroom (classrooms : List Classroom) (s : Schedule)
    (slot : TimeSlot) (requiredCapacity : Nat) : Option Classroom :=
  pickSmallest (classrooms.filter (fun c =>
    decide (requiredCapacity ≤ c.capacity) && !(s.isClassroomBusy c slot)))

/-- Inner loop of `place_ege_practices` for one reserved slot: place every
group whose hour index covers this slot and whose teacher works that day. -/
def placeGroupsInSlot (classrooms : List Classroom) (groups : List EGEPracticeGroup)
    (slotIdx : Nat) (slot : TimeSlot) (s : Schedule) : Schedule :=
  groups.foldl (fun sched g =>
    if g.hoursPerWeek ≤ slotIdx then sched
    else if !(g.teacher.isAvailable slot.day) then sched
    else
      let room := findAvailableClassroom classrooms sched slot g.students.length
      sched.addLesson
        { subject := "Практикум ЕГЭ: " ++ g.subject
          teacher := g.teacher
          classOrGroup := "ЕГЭ-" ++ g.subject
          classroom := room
          timeSlot := slot
          isEgePractice := true
          students := g.students }) s

/-- `ScheduleGenerator.place_ege_practices`, starting (as the generator does)
from an empty schedule.  `egeSlots` is the reserved-slot list produced by
`find_ege_practice_slots`; the placement claims hold for every such list, so
it is a parameter here. -/
def placeEgePractices (classrooms : List Classroom) (groups : List EGEPracticeGroup)
    (egeSlots : List TimeSlot) : Schedule :=
  (egeSlots.enum).foldl
    (fun sched p => placeGroupsInSlot classrooms groups p.1 p.2 sched) ⟨[]⟩

/-! ## Phase 2 (`phase2_mandatory.py`) -/

/-- Lower-casing as `str.lower` acts on the alphabets appearing in the
keyword table (ASCII and Russian Cyrillic). -/
def lowerChar (c : Char) : Char :=
  if 'A' ≤ c ∧ c ≤ 'Z' then Char.ofNat (c.toNat + 32)
  else if 0x410 ≤ c.toNat ∧ c.toNat ≤ 0x42F then Char.ofNat (c.toNat + 0x20)
  else if c.toNat = 0x401 then Char.ofNat 0x451
  else c

/-- `name.lower()` restricted to the alphabets above. -/
def toLowerRu (s : String) : String :=
  String.mk (s.data.map lowerChar)

/-- Keyword table of `Phase2MandatoryPlacer._is_hard_subject`. -/
def hardKeywords : List String :=
  ["математика", "алгебра", "геометрия",
   "русский", "физика", "химия",
   "английский", "немецкий", "французский"]

/-- Substring containment (`keyword in name_lower`). -/
def charsContain (needle hay : List Char) : Bool :=
  hay.tails.any (fun t => needle.isPrefixOf t)

/-- `Phase2MandatoryPlacer._is_hard_subject`: some keyword occurs in the
lower-cased subject name. -/
def isHardSubject (subj : Subject) : Bool :=
  hardKeywords.any (fun kw => charsContain kw.toList (toLowerRu subj.name).toList)

/-- `Phase2MandatoryPlacer._is_slot_available`: teacher works that day, the
teacher is free, every cohort of the subject is free, and the slot is not
reserved for exam practice. -/
def isSlotAvailable (egeSlots : List TimeSlot) (s : Schedule) (subj : Subject)
    (slot : TimeSlot) : Bool :=
  subj.teacher.isAvailable slot.day
    && !(teacherBusyName s subj.teacher.name slot)
    && subj.classes.all (fun cn => !(classBusyLabel s cn slot))
    && !(egeSlots.contains slot)

/-- Keys of the cache `_class_schedule[label]`: the distinct time slots of
the lessons bearing this label, in first-occurrence order. -/
def classSlots (s : Schedule) (label : String) : List TimeSlot :=
  ((s.lessons.filter (fun l => decide (l.classOrGroup = label))).map (·.timeSlot)).eraseDups

/-- Keys of the cache `_teacher_schedule[name]`. -/
def teacherSlots (s : Schedule) (name : String) : List TimeSlot :=
  ((s.lessons.filter (fun l => decide (l.teacher.name = name))).map (·.timeSlot)).eraseDups

/-- `sum(1 for ts, _ in self._class_schedule[class_name].items() if ts.day == day)`. -/
def dayLoadCount (s : Schedule) (label : String) (d : DayOfWeek) : Nat :=
  ((classSlots s label).filter (fun ts => decide (ts.day = d))).length

/-- Sum of the idle gaps between consecutive entries of an ascending list of
period numbers (the loop computing `gaps` in `_evaluate_slot`). -/
def gapSum : List Nat → Nat
  | a :: b :: rest => (b - a - 1) + gapSum (b :: rest)
  | _ => 0

/-- `Phase2MandatoryPlacer._evaluate_slot`: 0 for unavailable slots, else the
base-100 score with period-band, cohort-load, teacher-gap and new-day
adjustments. -/
def evaluateSlot (egeSlots : List TimeSlot) (s : Schedule) (subj : Subject)
    (isHard : Bool) (slot : TimeSlot) : ℚ :=
  if !(isSlotAvailable egeSlots s subj slot) then 0
  else
    let score : ℚ := 100
    let score :=
      if isHard then
        if 2 ≤ slot.lessonNumber ∧ slot.lessonNumber ≤ 4 then score + 30
        else if slot.lessonNumber = 1 then score - 15
        else if 6 ≤ slot.lessonNumber then score - 25
        else score
      else
        if 5 ≤ slot.lessonNumber then score + 10
        else if slot.lessonNumber = 1 then score - 5
        else score
    let score := if slot.lessonNumber = 1 then score - 10 else score
    let score := if slot.lessonNumber = 7 then score - 20 else score
    let score :=
      match subj.classes.head? with
      | some cn => score - (dayLoadCount s cn slot.day : ℚ) * 3
      | none => score
    let tSlots := (teacherSlots s subj.teacher.name).filter (fun ts => decide (ts.day = slot.day))
    let score :=
      if tSlots.isEmpty then score
      else
        let allNums := List.insertionSort (· ≤ ·)
          (tSlots.map (·.lessonNumber) ++ [slot.lessonNumber])
        score - (gapSum allNums : ℚ) * 5
    let teacherDays := (teacherSlots s subj.teacher.name).map (·.day)
    let score := if !(teacherDays.contains slot.day) then score + 5 else score
    if egeSlots.contains slot then 0 else score

/-- `Phase2MandatoryPlacer._evaluate_all_slots`: the positively-scored slots
of the grid, stably sorted by descending score (Python
`sort(reverse=True, key=...)`). -/
def evaluateAllSlots (egeSlots : List TimeSlot) (s : Schedule) (subj : Subject)
    (isHard : Bool) : List (ℚ × TimeSlot) :=
  List.insertionSort (fun p q : ℚ × TimeSlot => q.1 ≤ p.1)
    ((allSlots.map (fun sl => (evaluateSlot egeSlots s subj isHard sl, sl))).filter
      (fun p => decide (0 < p.1)))

/-- `Phase2MandatoryPlacer._find_best_slot`: first an available slot on a day
not yet used for this subject, else any available slot, in score order. -/
def findBestSlot (egeSlots : List TimeSlot) (s : Schedule) (subj : Subject)
    (scored : List (ℚ × TimeSlot)) (daysUsed : List DayOfWeek) : Option TimeSlot :=
  match scored.find? (fun p =>
      !(daysUsed.contains p.2.day) && isSlotAvailable egeSlots s subj p.2) with
  | some p => some p.2
  | none => (scored.find? (fun p => isSlotAvailable egeSlots s subj p.2)).map (·.2)

/-- `Phase2MandatoryPlacer._find_classroom`: prefer the teacher's free home
classroom, else the first free classroom in loader order; no capacity check. -/
def findClassroom (classrooms : List Classroom) (s : Schedule) (subj : Subject)
    (slot : TimeSlot) : Option Classroom :=
  let fallb := classrooms.find? (fun c => !(classroomBusyNumber s c.number slot))
  match subj.teacher.homeClassroom with
  | some hn =>
    match classrooms.find? (fun c => decide (c.number = hn)) with
    | some home => if !(classroomBusyNumber s home.number slot) then some home else fallb
    | none => fallb
  | none => fallb

/-- `class_name = subject.classes[0] if subject.classes else "unknown"`. -/
def classNameOf (subj : Subject) : String :=
  subj.classes.headD "unknown"

/-- The mutable placement state of `Phase2MandatoryPlacer`: the schedule plus
the `placed`/`failed` counters and the conflict report. -/
structure Phase2State where
  schedule : Schedule
  placed : Nat := 0
  failed : Nat := 0
  conflicts : List String := []
deriving DecidableEq

/-- The per-hour loop of `_place_subject`: each required hour either places a
lesson at the best available slot (removing it from the scored list and
marking its day used) or records a failure. -/
def placeSubjectHours (egeSlots : List TimeSlot) (classrooms : List Classroom)
    (subj : Subject) :
    Nat → List (ℚ × TimeSlot) → List DayOfWeek → Phase2State → Phase2State
  | 0, _, _, st => st
  | n + 1, scored, daysUsed, st =>
    match findBestSlot egeSlots st.schedule subj scored daysUsed with
    | none =>
      placeSubjectHours egeSlots classrooms subj n scored daysUsed
        { st with failed := st.failed + 1, conflicts := st.conflicts ++ [subj.name] }
    | some best =>
      let room := findClassroom classrooms st.schedule subj best
      let lesson : Lesson :=
        { subject := subj.name
          teacher := subj.teacher
          classOrGroup := classNameOf subj
          classroom := room
          timeSlot := best
          isEgePractice := false }
      placeSubjectHours egeSlots classrooms subj n
        (scored.filter (fun p => decide (p.2 ≠ best)))
        (daysUsed ++ [best.day])
        { st with schedule := st.schedule.addLesson lesson, placed := st.placed + 1 }

/-- `Phase2MandatoryPlacer._place_subject`. -/
def placeSubject (egeSlots : List TimeSlot) (classrooms : List Classroom)
    (subj : Subject) (st : Phase2State) : Phase2State :=
  placeSubjectHours egeSlots classrooms subj subj.hoursPerWeek
    (evaluateAllSlots egeSlots st.schedule subj (isHardSubject subj)) [] st

/-- Priority rank used by `_sort_by_priority` (hard subjects first). -/
def subjectHardRank (s : Subject) : Nat :=
  if isHardSubject s then 0 else 1

/-- The tuple comparison behind `_sort_by_priority`
(`(-is_hard, -hours, -teacher_restriction, name)`, ascending). -/
def priorityLEB (a b : Subject) : Bool :=
  if subjectHardRank a ≠ subjectHardRank b then
    decide (subjectHardRank a < subjectHardRank b)
  else if a.hoursPerWeek ≠ b.hoursPerWeek then
    decide (b.hoursPerWeek < a.hoursPerWeek)
  else if a.teacher.unavailableDays.eraseDups.length ≠ b.teacher.unavailableDays.eraseDups.length then
    decide (b.teacher.unavailableDays.eraseDups.length < a.teacher.unavailableDays.eraseDups.length)
  else decide (a.name ≤ b.name)

/-- `Phase2MandatoryPlacer._sort_by_priority` (Python `sorted` is stable). -/
def sortByPriority (subjects : List Subject) : List Subject :=
  List.insertionSort (fun a b => priorityLEB a b = true) subjects

/-- Key order of the `defaultdict` built by `_group_by_class`
(first-appearance order of cohort names). -/
def classKeys (subjects : List Subject) : List String :=
  (subjects.flatMap (·.classes)).eraseDups

/-- `Phase2MandatoryPlacer._group_by_class` flattened in the iteration order
of `place_all_mandatory_subjects` (a subject serving several cohorts is
processed once per cohort, as in the source). -/
def groupByClass (subjects : List Subject) : List Subject :=
  (classKeys subjects).flatMap (fun cn => subjects.filter (fun s => s.classes.contains cn))

/-- `Phase2MandatoryPlacer.place_all_mandatory_subjects`. -/
def placeAllMandatorySubjects (egeSlots : List TimeSlot) (classrooms : List Classroom)
    (subjects : List Subject) (st : Phase2State) : Phase2State :=
  let mand := subjects.filter (fun s => decide (s.subjectType = SubjectType.mandatory))
  (groupByClass (sortByPriority mand)).foldl
    (fun acc subj => placeSubject egeSlots classrooms subj acc) st

/-! ## Phase 3 (`phase3_optimization.py`)

The optimizer's state is the lesson list (Python mutates the `Lesson`
objects in place; here the list entry is replaced), the `lessons_by_slot`
index, the current/best metrics, the best snapshot, the counters and the
temperature.  The quality metric is a parameter `μ`: every claim about the
annealing loop holds for an arbitrary metric, and the Python metric's
standard-deviation term is irrational, so it is not a rational-valued
function.  The random lesson sampling and the Metropolis draw of each
iteration are an `IterChoice` input. -/

/-- `Phase3Optimizer._can_swap` over the `lessons_by_slot` index. -/
def canSwap (bySlot : TimeSlot → List Lesson) (lesson1 lesson2 : Lesson) : Bool :=
  let slot1 := lesson1.timeSlot
  let slot2 := lesson2.timeSlot
  if slot1 = slot2 then false
  else if !(lesson1.teacher.isAvailable slot2.day) then false
  else if (bySlot slot2).any (fun o =>
      decide (o ≠ lesson2) && decide (o.teacher.name = lesson1.teacher.name)) then false
  else if !(lesson2.teacher.isAvailable slot1.day) then false
  else if (bySlot slot1).any (fun o =>
      decide (o ≠ lesson1) && decide (o.teacher.name = lesson2.teacher.name)) then false
  else if (bySlot slot2).any (fun o =>
      decide (o ≠ lesson2) && decide (o.classOrGroup = lesson1.classOrGroup)) then false
  else if (bySlot slot1).any (fun o =>
      decide (o ≠ lesson1) && decide (o.classOrGroup = lesson2.classOrGroup)) then false
  else if lesson1.classroom.isSome && lesson2.classroom.isSome then
    !((bySlot slot2).any (fun o =>
        decide (o ≠ lesson2) && decide (o.classroom = lesson1.classroom)))
      && !((bySlot slot1).any (fun o =>
        decide (o ≠ lesson1) && decide (o.classroom = lesson2.classroom)))
  else true

/-- Membership test of `Phase3Optimizer._find_swap_candidates`: `other` is a
legal swap partner for `lesson`. -/
def isSwapCandidate (bySlot : TimeSlot → List Lesson) (lesson other : Lesson) : Bool :=
  decide (other ≠ lesson)
    && !(lesson.isEgePractice && other.isEgePractice)
    && canSwap bySlot lesson other

/-- The `lessons_by_slot` defaultdict as built by `_build_indices`
(appending in schedule order). -/
def buildBySlot (lessons : List Lesson) : TimeSlot → List Lesson :=
  fun s => lessons.filter (fun l => decide (l.timeSlot = s))

/-- The optimizer's mutable state. -/
structure OptState where
  lessons : List Lesson
  bySlot : TimeSlot → List Lesson
  currentMetric : ℚ
  bestMetric : ℚ
  bestLessons : List Lesson
  improvements : Nat := 0
  acceptedWorse : Nat := 0
  noImprovement : Nat := 0
  temperature : ℚ := 100

/-- `Phase3Optimizer._swap_lessons` on the lessons at positions `i` and `j`:
drop each from its slot bucket, exchange the two `time_slot` fields, append
each to its new bucket. -/
def swapLessons (st : OptState) (i j : Nat) : OptState :=
  match st.lessons[i]?, st.lessons[j]? with
  | some l1, some l2 =>
    let slot1 := l1.timeSlot
    let slot2 := l2.timeSlot
    let l1s : Lesson := { l1 with timeSlot := slot2 }
    let l2s : Lesson := { l2 with timeSlot := slot1 }
    let b1 := Function.update st.bySlot slot1 ((st.bySlot slot1).erase l1)
    let b2 := Function.update b1 slot2 ((b1 slot2).erase l2)
    let b3 := Function.update b2 slot2 ((b2 slot2) ++ [l1s])
    let b4 := Function.update b3 slot1 ((b3 slot1) ++ [l2s])
    { st with lessons := (st.lessons.set i l1s).set j l2s, bySlot := b4 }
  | _, _ => st

/-- The random outcomes of one annealing iteration: the sampled lesson pair
(`none` when the sampler yields no legal pair) and the Metropolis draw. -/
structure IterChoice where
  pick : Option (Nat × Nat)
  accept : Bool

/-- An iteration actually performs a swap (the sampled pair exists and is a
legal candidate pair, as `_find_and_try_swap` guarantees for its output). -/
def iterValid (st : OptState) (ch : IterChoice) : Bool :=
  match ch.pick with
  | none => false
  | some (i, j) =>
    match st.lessons[i]?, st.lessons[j]? with
    | some l1, some l2 =>
      decide (2 ≤ st.lessons.length) && isSwapCandidate st.bySlot l1 l2
    | _, _ => false

/-- One iteration of `Phase3Optimizer.optimize`: speculative swap, metric
recomputation, accept / accept-worse / undo, cooling. -/
def optStep (μ : List Lesson → ℚ) (st : OptState) (ch : IterChoice) : OptState :=
  match ch.pick with
  | none => st
  | some (i, j) =>
    match st.lessons[i]?, st.lessons[j]? with
    | some l1, some l2 =>
      if decide (2 ≤ st.lessons.length) && isSwapCandidate st.bySlot l1 l2 then
        let st1 := swapLessons st i j
        let newMetric := μ st1.lessons
        let delta := newMetric - st.currentMetric
        let cooled : ℚ := max (1/10) (st.temperature * (995/1000))
        if delta < 0 then
          let st2 : OptState :=
            { st1 with currentMetric := newMetric,
                       improvements := st1.improvements + 1,
                       noImprovement := 0,
                       temperature := cooled }
          if newMetric < st.bestMetric then
            { st2 with bestMetric := newMetric, bestLessons := st1.lessons }
          else st2
        else if ch.accept then
          { st1 with currentMetric := newMetric,
                     acceptedWorse := st1.acceptedWorse + 1,
                     noImprovement := st1.noImprovement + 1,
                     temperature := cooled }
        else
          { swapLessons st1 i j with
              noImprovement := st1.noImprovement + 1,
              temperature := cooled }
      else st
    | _, _ => st

/-- The iteration loop with the plateau early stop (`continue` skips the
plateau check, so it only runs after a performed swap). -/
def optimizeLoop (μ : List Lesson → ℚ) : List IterChoice → OptState → OptState
  | [], st => st
  | ch :: rest, st =>
    let st1 := optStep μ st ch
    if iterValid st ch && decide (200 ≤ st1.noImprovement) then st1
    else optimizeLoop μ rest st1

/-- The state `Phase3Optimizer.optimize` starts from: indices built from the
schedule, current and best metric equal to the initial metric, best snapshot
equal to the initial schedule. -/
def initOptState (μ : List Lesson → ℚ) (lessons0 : List Lesson) : OptState :=
  { lessons := lessons0
    bySlot := buildBySlot lessons0
    currentMetric := μ lessons0
    bestMetric := μ lessons0
    bestLessons := lessons0 }

/-- The final optimizer state of a run. -/
def optimizeRun (μ : List Lesson → ℚ) (lessons0 : List Lesson)
    (choices : List IterChoice) : OptState :=
  optimizeLoop μ choices (initOptState μ lessons0)

/-- `Phase3Optimizer.optimize`: the returned schedule is the restored best
snapshot. -/
def optimize (μ : List Lesson → ℚ) (lessons0 : List Lesson)
    (choices : List IterChoice) : List Lesson :=
  (optimizeRun μ lessons0 choices).bestLessons

/-- The metric observed by one iteration (the `new_metric` computed after
the speculative swap), when the iteration performs a swap. -/
def iterMetric (μ : List Lesson → ℚ) (st : OptState) (ch : IterChoice) : Option ℚ :=
  match ch.pick with
  | none => none
  | some (i, j) =>
    match st.lessons[i]?, st.lessons[j]? with
    | some l1, some l2 =>
      if decide (2 ≤ st.lessons.length) && isSwapCandidate st.bySlot l1 l2 then
        some (μ (swapLessons st i j).lessons)
      else none
    | _, _ => none

/-- All metrics observed during a run of the loop, in order. -/
def observedMetrics (μ : List Lesson → ℚ) : List IterChoice → OptState → List ℚ
  | [], _ => []
  | ch :: rest, st =>
    let st1 := optStep μ st ch
    let ms := match iterMetric μ st ch with
      | some m => [m]
      | none => []
    if iterValid st ch && decide (200 ≤ st1.noImprovement) then ms
    else ms ++ observedMetrics μ rest st1

/-! ## Schedule invariants (§3 of the specification) -/

/-- No two lessons share a (teacher, slot) pair (teachers are identified by
name, as every conflict check of Phases 2 and 3 does). -/
def noTeacherClash (ls : List Lesson) : Prop :=
  ls.Pairwise (fun a b => a.teacher.name = b.teacher.name → a.timeSlot ≠ b.timeSlot)

/-- No two lessons share a (class-or-group label, slot) pair. -/
def noLabelClash (ls : List Lesson) : Prop :=
  ls.Pairwise (fun a b => a.classOrGroup = b.classOrGroup → a.timeSlot ≠ b.timeSlot)

/-- No two lessons with assigned classrooms share a (classroom, slot) pair. -/
def noRoomClash (ls : List Lesson) : Prop :=
  ls.Pairwise (fun a b =>
    ∀ c : Classroom, a.classroom = some c → b.classroom = some c → a.timeSlot ≠ b.timeSlot)

/-- Every lesson's teacher works on the lesson's weekday. -/
def teacherDaysOk (ls : List Lesson) : Prop :=
  ∀ l ∈ ls, l.teacher.isAvailable l.timeSlot.day = true

/-! ## Claim C6: the Phase-1 slot score -/

/-- The period adjustment actually implemented by `evaluate_ege_slot`
(−30 for period 1, −20 for period 7, +20 for periods 2–4). -/
def egeBand (p : Nat) : ℚ :=
  if p = 1 then -30
  else if p = 7 then -20
  else if 2 ≤ p ∧ p ≤ 4 then 20
  else 0

/-- The claim says period 7 is penalised strictly more than period 1, which
for equal weekday and jitter forces a strictly lower score at period 7; the
code penalises period 1 (−30) more than period 7 (−20), so with one
always-available teacher and zero jitter the period-1 score is the smaller
one. -/
theorem c6_counterexample :
    evaluateEgeSlot [{ name := "Т" }] ⟨DayOfWeek.monday, 1⟩ 0
      < evaluateEgeSlot [{ name := "Т" }] ⟨DayOfWeek.monday, 7⟩ 0 := by
  simp [evaluateEgeSlot, Teacher.isAvailable]
  norm_num

/-- C6 (amended): the Phase-1 slot score is base 100 plus a period band that
penalises period 1 by 30, period 7 by 20 — so period 1, not period 7, gets
the strictly heavier penalty — and grants +20 to periods 2–4; plus 50 times
the fraction of all teachers available on the slot's weekday; plus the
random jitter. -/
theorem c6_amended :
    (∀ (teachers : List Teacher) (slot : TimeSlot) (jitter : ℚ),
      evaluateEgeSlot teachers slot jitter =
        100 + egeBand slot.lessonNumber
          + ((teachers.filter (fun t => t.isAvailable slot.day)).length : ℚ)
              / (teachers.length : ℚ) * 50
          + jitter)
    ∧ egeBand 1 < egeBand 7
    ∧ egeBand 7 < 0
    ∧ (∀ p, 2 ≤ p → p ≤ 4 → egeBand p = 20) := by
  refine ⟨fun teachers slot jitter => ?_, by norm_num [egeBand], by norm_num [egeBand], ?_⟩
  · simp only [evaluateEgeSlot, egeBand]
    split_ifs <;> ring
  · intro p h2 h4
    have h1 : p ≠ 1 := by omega
    have h7 : p ≠ 7 := by omega
    simp [egeBand, h1, h7, h2, h4]

/-! ## Claim C8: Phase-1 classroom choice -/

theorem pickSmallest_eq_none_iff (cs : List Classroom) :
    pickSmallest cs = none ↔ cs = [] := by
  cases cs with
  | nil => simp [pickSmallest]
  | cons c cs =>
    simp only [pickSmallest]
    constructor
    · intro h
      exfalso
      cases hrec : pickSmallest cs with
      | none =>
        simp only [hrec] at h
        exact Option.noConfusion h
      | some d =>
        simp only [hrec] at h
        split at h <;> exact Option.noConfusion h
    · intro h
      exact List.noConfusion h

theorem pickSmallest_mem {cs : List Classroom} {c : Classroom}
    (h : pickSmallest cs = some c) : c ∈ cs := by
  induction cs generalizing c with
  | nil => exact absurd h (by simp [pickSmallest])
  | cons a cs ih =>
    simp only [pickSmallest] at h
    cases hrec : pickSmallest cs with
    | none =>
      simp only [hrec] at h
      cases h
      exact List.mem_cons_self _ _
    | some d =>
      simp only [hrec] at h
      split at h
      · cases h
        exact List.mem_cons_self _ _
      · cases h
        exact List.mem_cons_of_mem _ (ih hrec)

theorem pickSmallest_min {cs : List Classroom} {c : Classroom}
    (h : pickSmallest cs = some c) : ∀ d ∈ cs, c.capacity ≤ d.capacity := by
  induction cs generalizing c with
  | nil => exact absurd h (by simp [pickSmallest])
  | cons a cs ih =>
    simp only [pickSmallest] at h
    cases hrec : pickSmallest cs with
    | none =>
      simp only [hrec] at h
      cases h
      have hnil : cs = [] := (pickSmallest_eq_none_iff cs).mp hrec
      subst hnil
      intro d hd
      rw [List.mem_singleton] at hd
      subst hd
      exact le_refl _
    | some d =>
      simp only [hrec] at h
      by_cases hle : a.capacity ≤ d.capacity
      · rw [if_pos hle] at h
        cases h
        intro e he
        rcases List.mem_cons.mp he with rfl | he
        · exact le_refl _
        · exact le_trans hle (ih hrec e he)
      · rw [if_neg hle] at h
        cases h
        intro e he
        rcases List.mem_cons.mp he with rfl | he
        · omega
        · exact ih hrec e he

/-- The single capacity-20 classroom of the spec's scenario. -/
def roomTwenty : Classroom :=
  { number := "210", capacity := 20, floor := 2 }

/-- A 25-student exam-practice group. -/
def bigGroup : EGEPracticeGroup :=
  { subject := "Информатика"
    teacher := { name := "И" }
    students := List.replicate 25 { name := "у", className := "11А" }
    hoursPerWeek := 1 }

/-- C8: `find_available_classroom` returns a free classroom of sufficient
capacity that is capacity-minimal among the free fitting ones, and `none`
exactly when no free classroom fits; and in the capacity-20 / 25-student
scenario Phase 1 still places the lesson, with no classroom assigned. -/
theorem c8_smallest_fit_or_lesson_without_room :
    (∀ (classrooms : List Classroom) (s : Schedule) (slot : TimeSlot) (need : Nat)
        (c : Classroom),
      findAvailableClassroom classrooms s slot need = some c →
        c ∈ classrooms ∧ need ≤ c.capacity ∧ s.isClassroomBusy c slot = false ∧
        ∀ d ∈ classrooms, need ≤ d.capacity → s.isClassroomBusy d slot = false →
          c.capacity ≤ d.capacity)
    ∧ (∀ (classrooms : List Classroom) (s : Schedule) (slot : TimeSlot) (need : Nat),
      findAvailableClassroom classrooms s slot need = none →
        ∀ d ∈ classrooms, need ≤ d.capacity → s.isClassroomBusy d slot = true)
    ∧ (placeEgePractices [roomTwenty] [bigGroup] [⟨DayOfWeek.monday, 3⟩]).lessons.map
        (fun l => (l.classroom, l.isEgePractice)) = [(none, true)] := by
  refine ⟨?_, ?_, by decide⟩
  · intro classrooms s slot need c h
    have hmem := pickSmallest_mem h
    have hmin := pickSmallest_min h
    rw [List.mem_filter] at hmem
    obtain ⟨hc, hpred⟩ := hmem
    rw [Bool.and_eq_true, decide_eq_true_eq, Bool.not_eq_true'] at hpred
    refine ⟨hc, hpred.1, hpred.2, ?_⟩
    intro d hd hcap hfree
    exact hmin d (List.mem_filter.mpr ⟨hd, by simp [hcap, hfree]⟩)
  · intro classrooms s slot need h d hd hcap
    rw [findAvailableClassroom, pickSmallest_eq_none_iff, List.filter_eq_nil_iff] at h
    have := h d hd
    simpa [hcap] using this

/-- C8 witness: the general clauses applied to a concrete one-classroom
instance. -/
theorem c8_witness :
    roomTwenty ∈ [roomTwenty] ∧ 10 ≤ roomTwenty.capacity ∧
      Schedule.isClassroomBusy ⟨[]⟩ roomTwenty ⟨DayOfWeek.monday, 3⟩ = false ∧
      ∀ d ∈ [roomTwenty], 10 ≤ d.capacity →
        Schedule.isClassroomBusy ⟨[]⟩ d ⟨DayOfWeek.monday, 3⟩ = false →
        roomTwenty.capacity ≤ d.capacity :=
  c8_smallest_fit_or_lesson_without_room.1 [roomTwenty] ⟨[]⟩ ⟨DayOfWeek.monday, 3⟩ 10
    roomTwenty (by decide)

/-! ## Claim C1: the no-double-booking invariant across the three phases -/

/-- A teacher taking two exam-practice groups (possible whenever one teacher
handles two exam subjects). -/
def sharedTeacher : Teacher :=
  { name := "Ш" }

def mathGroup : EGEPracticeGroup :=
  { subject := "Математика", teacher := sharedTeacher, hoursPerWeek := 1 }

def physicsGroup : EGEPracticeGroup :=
  { subject := "Физика", teacher := sharedTeacher, hoursPerWeek := 1 }

/-- C1 counterexample: `place_ege_practices` checks only the teacher's
weekday availability, never whether the teacher is already booked in the
reserved slot, so two groups sharing one teacher land on the same slot and
the Phase-1 output already violates the (teacher, slot) uniqueness the claim
asserts for every phase. -/
theorem c1_counterexample :
    ¬ noTeacherClash
        (placeEgePractices [] [mathGroup, physicsGroup] [⟨DayOfWeek.monday, 2⟩]).lessons := by
  unfold noTeacherClash
  decide

/-! ## Claims C5 and C9: the Phase-3 swap-legality predicate -/

/-- `_can_swap` unfolded into its conjunction of checks: distinct slots, both
teachers available on the exchanged weekdays, no teacher-name or label clash
with the other occupants of either slot, and — only when both lessons carry
an assigned classroom — no classroom clash. -/
theorem canSwap_iff (bySlot : TimeSlot → List Lesson) (a b : Lesson) :
    canSwap bySlot a b = true ↔
      (a.timeSlot ≠ b.timeSlot
        ∧ a.teacher.isAvailable b.timeSlot.day = true
        ∧ b.teacher.isAvailable a.timeSlot.day = true
        ∧ (∀ o ∈ bySlot b.timeSlot, o ≠ b → o.teacher.name ≠ a.teacher.name)
        ∧ (∀ o ∈ bySlot a.timeSlot, o ≠ a → o.teacher.name ≠ b.teacher.name)
        ∧ (∀ o ∈ bySlot b.timeSlot, o ≠ b → o.classOrGroup ≠ a.classOrGroup)
        ∧ (∀ o ∈ bySlot a.timeSlot, o ≠ a → o.classOrGroup ≠ b.classOrGroup)
        ∧ (a.classroom.isSome = true → b.classroom.isSome = true →
            (∀ o ∈ bySlot b.timeSlot, o ≠ b → o.classroom ≠ a.classroom)
            ∧ (∀ o ∈ bySlot a.timeSlot, o ≠ a → o.classroom ≠ b.classroom))) := by
  unfold canSwap
  split_ifs <;>
    simp_all [List.any_eq_true, decide_eq_true_eq, Bool.and_eq_true,
      Bool.not_eq_true', List.any_eq_false] <;>
    tauto

/-- C9: `_can_swap` is symmetric in its two lesson arguments. -/
theorem c9_canSwap_symm :
    ∀ (bySlot : TimeSlot → List Lesson) (a b : Lesson),
      canSwap bySlot a b = canSwap bySlot b a := by
  intro bySlot a b
  rw [Bool.eq_iff_iff, canSwap_iff, canSwap_iff]
  constructor
  · rintro ⟨p1, p2, p3, p4, p5, p6, p7, p8⟩
    exact ⟨Ne.symm p1, p3, p2, p5, p4, p7, p6,
      fun hb ha => ⟨(p8 ha hb).2, (p8 ha hb).1⟩⟩
  · rintro ⟨p1, p2, p3, p4, p5, p6, p7, p8⟩
    exact ⟨Ne.symm p1, p3, p2, p5, p4, p7, p6,
      fun ha hb => ⟨(p8 hb ha).2, (p8 hb ha).1⟩⟩

/-- Classroom shared by the two clashing lessons of the C5 counterexample. -/
def roomX : Classroom :=
  { number := "101", capacity := 30, floor := 1 }

def lessonSwapA : Lesson :=
  { subject := "История", teacher := { name := "А" }, classOrGroup := "11А",
    classroom := some roomX, timeSlot := ⟨DayOfWeek.monday, 1⟩ }

def lessonSwapB : Lesson :=
  { subject := "Труд", teacher := { name := "Б" }, classOrGroup := "11Б",
    classroom := none, timeSlot := ⟨DayOfWeek.monday, 2⟩ }

def lessonSwapC : Lesson :=
  { subject := "Музыка", teacher := { name := "В" }, classOrGroup := "11В",
    classroom := some roomX, timeSlot := ⟨DayOfWeek.monday, 2⟩ }

def swapCtx : List Lesson :=
  [lessonSwapA, lessonSwapB, lessonSwapC]

/-- C5 counterexample: when only one of the two lessons carries a classroom,
`_can_swap` skips the classroom check entirely, so a swap is admitted even
though it moves `lessonSwapA`'s classroom into a slot where another lesson
already uses that classroom — the exchange introduces a classroom
double-booking the claim says is never admitted. -/
theorem c5_counterexample :
    isSwapCandidate (buildBySlot swapCtx) lessonSwapA lessonSwapB = true
      ∧ ∃ o ∈ buildBySlot swapCtx lessonSwapB.timeSlot,
          o ≠ lessonSwapB ∧ o.classroom = lessonSwapA.classroom := by
  constructor
  · decide
  · exact ⟨lessonSwapC, by decide, by decide, by decide⟩

/-- C5 (amended): a swap is admitted iff the lessons are distinct, not both
exam practices, on distinct slots, each teacher is available on its new
weekday, and no teacher or cohort double-booking is introduced (checked
against the slots' other occupants); the classroom double-booking check is
applied only when both lessons have an assigned classroom. -/
theorem c5_amended :
    ∀ (bySlot : TimeSlot → List Lesson) (a b : Lesson),
      isSwapCandidate bySlot a b = true ↔
        (b ≠ a
          ∧ ¬(a.isEgePractice = true ∧ b.isEgePractice = true)
          ∧ a.timeSlot ≠ b.timeSlot
          ∧ a.teacher.isAvailable b.timeSlot.day = true
          ∧ b.teacher.isAvailable a.timeSlot.day = true
          ∧ (∀ o ∈ bySlot b.timeSlot, o ≠ b → o.teacher.name ≠ a.teacher.name)
          ∧ (∀ o ∈ bySlot a.timeSlot, o ≠ a → o.teacher.name ≠ b.teacher.name)
          ∧ (∀ o ∈ bySlot b.timeSlot, o ≠ b → o.classOrGroup ≠ a.classOrGroup)
          ∧ (∀ o ∈ bySlot a.timeSlot, o ≠ a → o.classOrGroup ≠ b.classOrGroup)
          ∧ (a.classroom.isSome = true → b.classroom.isSome = true →
              (∀ o ∈ bySlot b.timeSlot, o ≠ b → o.classroom ≠ a.classroom)
              ∧ (∀ o ∈ bySlot a.timeSlot, o ≠ a → o.classroom ≠ b.classroom))) := by
  intro bySlot a b
  simp only [isSwapCandidate, Bool.and_eq_true, decide_eq_true_eq, Bool.not_eq_true']
  rw [canSwap_iff]
  constructor
  · rintro ⟨⟨hne, hege⟩, h⟩
    refine ⟨hne, ?_, h⟩
    intro ⟨ha, hb⟩
    simp [ha, hb] at hege
  · rintro ⟨hne, hege, h⟩
    refine ⟨⟨hne, ?_⟩, h⟩
    cases ha : a.isEgePractice <;> cases hb : b.isEgePractice <;> simp_all

/-! ## Claim C7: the Phase-2 slot score -/

/-- Period-band bonus/penalty of `_evaluate_slot`. -/
def bandTermC7 (isHard : Bool) (p : Nat) : ℚ :=
  if isHard then
    if 2 ≤ p ∧ p ≤ 4 then 30
    else if p = 1 then -15
    else if 6 ≤ p then -25
    else 0
  else
    if 5 ≤ p then 10
    else if p = 1 then -5
    else 0

/-- Fixed edge-period penalties (−10 for period 1, −20 for period 7). -/
def edgeTermC7 (p : Nat) : ℚ :=
  (if p = 1 then -10 else 0) + (if p = 7 then -20 else 0)

/-- −3 per occupied slot of the subject's first cohort on the day. -/
def cohortLoadTermC7 (s : Schedule) (subj : Subject) (slot : TimeSlot) : ℚ :=
  match subj.classes.head? with
  | some cn => -((dayLoadCount s cn slot.day : ℚ) * 3)
  | none => 0

/-- The teacher-gap term as the code computes it: −5 per idle gap present in
the teacher's day **after** the placement (the total, not the increment),
and no term at all when the teacher had no lesson that day. -/
def gapTermC7 (s : Schedule) (subj : Subject) (slot : TimeSlot) : ℚ :=
  let tSlots := (teacherSlots s subj.teacher.name).filter (fun ts => decide (ts.day = slot.day))
  if tSlots.isEmpty then 0
  else -((gapSum (List.insertionSort (· ≤ ·)
      (tSlots.map (·.lessonNumber) ++ [slot.lessonNumber])) : ℚ) * 5)

/-- +5 when the teacher does not teach on the slot's day yet. -/
def newDayTermC7 (s : Schedule) (subj : Subject) (slot : TimeSlot) : ℚ :=
  if !(((teacherSlots s subj.teacher.name).map (·.day)).contains slot.day) then 5 else 0

/-- Modelled from the spec: the gap term as claim C7 words it, −5 per
idle-gap unit the placement would **add** to the teacher's day (gaps after
the placement minus gaps before it). -/
def claimedGapTermC7 (s : Schedule) (subj : Subject) (slot : TimeSlot) : ℚ :=
  let tSlots := (teacherSlots s subj.teacher.name).filter (fun ts => decide (ts.day = slot.day))
  let gapsBefore := gapSum (List.insertionSort (· ≤ ·) (tSlots.map (·.lessonNumber)))
  let gapsAfter := gapSum (List.insertionSort (· ≤ ·)
      (tSlots.map (·.lessonNumber) ++ [slot.lessonNumber]));
  -(((gapsAfter : ℚ) - (gapsBefore : ℚ)) * 5)

/-- Modelled from the spec: the score formula exactly as claim C7 states it. -/
def claimedScoreC7 (s : Schedule) (subj : Subject) (isHard : Bool) (slot : TimeSlot) : ℚ :=
  100 + bandTermC7 isHard slot.lessonNumber + edgeTermC7 slot.lessonNumber
    + cohortLoadTermC7 s subj slot + claimedGapTermC7 s subj slot
    + newDayTermC7 s subj slot

set_option maxHeartbeats 1600000 in
/-- Shared formula lemma: on every available slot the code's score is the
base-100 sum with the **total-after** gap term. -/
theorem evaluateSlot_formula (egeSlots : List TimeSlot) (s : Schedule) (subj : Subject)
    (isHard : Bool) (slot : TimeSlot)
    (h : isSlotAvailable egeSlots s subj slot = true) :
    evaluateSlot egeSlots s subj isHard slot =
      100 + bandTermC7 isHard slot.lessonNumber + edgeTermC7 slot.lessonNumber
        + cohortLoadTermC7 s subj slot + gapTermC7 s subj slot
        + newDayTermC7 s subj slot := by
  have h4 : egeSlots.contains slot = false := by
    have h2 := h
    simp only [isSlotAvailable, Bool.and_eq_true, Bool.not_eq_true'] at h2
    exact h2.2
  simp only [evaluateSlot, bandTermC7, edgeTermC7, cohortLoadTermC7, gapTermC7,
    newDayTermC7, h, h4, Bool.not_true, Bool.false_eq_true, if_false]
  cases hcn : subj.classes.head? <;> simp only [hcn] <;> split_ifs <;> ring

/-- The Phase-1-style schedule for the C7 counterexample: one teacher with
lessons in periods 1 and 3 on Monday (one pre-existing idle gap). -/
def c7Teacher : Teacher :=
  { name := "Т" }

def c7Sched : Schedule :=
  ⟨[{ subject := "История", teacher := c7Teacher, classOrGroup := "11А",
      classroom := none, timeSlot := ⟨DayOfWeek.monday, 1⟩ },
    { subject := "География", teacher := c7Teacher, classOrGroup := "11Б",
      classroom := none, timeSlot := ⟨DayOfWeek.monday, 3⟩ }]⟩

def c7Subj : Subject :=
  { name := "Труд", subjectType := SubjectType.mandatory, hoursPerWeek := 1,
    teacher := c7Teacher, classes := ["11В"] }

/-- C7 counterexample: placing period 5 on a day where the teacher already
has lessons in periods 1 and 3 (one existing gap), the code charges
−5 × 2 (total gaps after placement: 1-3 and 3-5), while the claim's
"gap units the placement would add" is 2 − 1 = 1, i.e. −5 × 1; the claimed
formula misses the code's score by 5. -/
theorem c7_counterexample :
    isSlotAvailable [] c7Sched c7Subj ⟨DayOfWeek.monday, 5⟩ = true
      ∧ evaluateSlot [] c7Sched c7Subj (isHardSubject c7Subj) ⟨DayOfWeek.monday, 5⟩
          ≠ claimedScoreC7 c7Sched c7Subj (isHardSubject c7Subj) ⟨DayOfWeek.monday, 5⟩ := by
  have havail : isSlotAvailable [] c7Sched c7Subj ⟨DayOfWeek.monday, 5⟩ = true := by decide
  refine ⟨havail, ?_⟩
  rw [evaluateSlot_formula _ _ _ _ _ havail]
  simp only [claimedScoreC7]
  have hgap : gapTermC7 c7Sched c7Subj ⟨DayOfWeek.monday, 5⟩ = -10 := by
    have e2 : gapSum (List.insertionSort (· ≤ ·)
        ((((teacherSlots c7Sched c7Subj.teacher.name).filter
            (fun ts => decide (ts.day = (⟨DayOfWeek.monday, 5⟩ : TimeSlot).day))).map
          (·.lessonNumber)) ++ [(⟨DayOfWeek.monday, 5⟩ : TimeSlot).lessonNumber])) = 2 := by
      decide
    simp only [gapTermC7, e2]
    norm_num
    decide
  have hclaimed : claimedGapTermC7 c7Sched c7Subj ⟨DayOfWeek.monday, 5⟩ = -5 := by
    have e2 : gapSum (List.insertionSort (· ≤ ·)
        ((((teacherSlots c7Sched c7Subj.teacher.name).filter
            (fun ts => decide (ts.day = (⟨DayOfWeek.monday, 5⟩ : TimeSlot).day))).map
          (·.lessonNumber)) ++ [(⟨DayOfWeek.monday, 5⟩ : TimeSlot).lessonNumber])) = 2 := by
      decide
    have e1 : gapSum (List.insertionSort (· ≤ ·)
        (((teacherSlots c7Sched c7Subj.teacher.name).filter
            (fun ts => decide (ts.day = (⟨DayOfWeek.monday, 5⟩ : TimeSlot).day))).map
          (·.lessonNumber))) = 1 := by
      decide
    simp only [claimedGapTermC7, e1, e2]
    norm_num
  rw [hgap, hclaimed]
  norm_num

/-- C7 (amended): on every legal slot the Phase-2 score is exactly base 100
plus the claimed band, edge, cohort-load and new-day terms, but with the
gap term charging −5 per idle gap present in the teacher's day **after**
the placement (total, not the added increment). -/
theorem c7_amended :
    ∀ (egeSlots : List TimeSlot) (s : Schedule) (subj : Subject) (isHard : Bool)
      (slot : TimeSlot),
      isSlotAvailable egeSlots s subj slot = true →
      evaluateSlot egeSlots s subj isHard slot =
        100 + bandTermC7 isHard slot.lessonNumber + edgeTermC7 slot.lessonNumber
          + cohortLoadTermC7 s subj slot + gapTermC7 s subj slot
          + newDayTermC7 s subj slot := by
  intro egeSlots s subj isHard slot h
  exact evaluateSlot_formula egeSlots s subj isHard slot h

/-- C7 witness: the amended formula evaluated on the counterexample
schedule. -/
theorem c7_amended_witness :
    evaluateSlot [] c7Sched c7Subj false ⟨DayOfWeek.monday, 5⟩ =
      100 + bandTermC7 false 5 + edgeTermC7 5
        + cohortLoadTermC7 c7Sched c7Subj ⟨DayOfWeek.monday, 5⟩
        + gapTermC7 c7Sched c7Subj ⟨DayOfWeek.monday, 5⟩
        + newDayTermC7 c7Sched c7Subj ⟨DayOfWeek.monday, 5⟩ :=
  c7_amended [] c7Sched c7Subj false ⟨DayOfWeek.monday, 5⟩ (by decide)

/-! ## Claim C10: the double swap as a rollback -/

theorem swapLessons_lessons (st : OptState) {i j : Nat} {l1 l2 : Lesson}
    (hi : st.lessons[i]? = some l1) (hj : st.lessons[j]? = some l2) :
    (swapLessons st i j).lessons =
      (st.lessons.set i { l1 with timeSlot := l2.timeSlot }).set j
        { l2 with timeSlot := l1.timeSlot } := by
  simp only [swapLessons, hi, hj]

theorem swapLessons_bySlot_apply (st : OptState) {i j : Nat} {l1 l2 : Lesson}
    (hi : st.lessons[i]? = some l1) (hj : st.lessons[j]? = some l2)
    (hs : l1.timeSlot ≠ l2.timeSlot) (s : TimeSlot) :
    (swapLessons st i j).bySlot s =
      if s = l1.timeSlot then
        (st.bySlot l1.timeSlot).erase l1 ++ [{ l2 with timeSlot := l1.timeSlot }]
      else if s = l2.timeSlot then
        (st.bySlot l2.timeSlot).erase l2 ++ [{ l1 with timeSlot := l2.timeSlot }]
      else st.bySlot s := by
  simp only [swapLessons, hi, hj]
  by_cases h1 : s = l1.timeSlot
  · subst h1
    simp [Function.update_apply, hs, Ne.symm hs]
  · by_cases h2 : s = l2.timeSlot
    · subst h2
      simp [Function.update_apply, Ne.symm hs, h1]
    · simp [Function.update_apply, h1, h2]

/-- The undo step restores the lesson list exactly: swapping the same pair
of positions twice is the identity on `lessons`. -/
theorem swap_swap_lessons (st : OptState) {i j : Nat} {l1 l2 : Lesson}
    (hi : st.lessons[i]? = some l1) (hj : st.lessons[j]? = some l2) (hij : i ≠ j) :
    (swapLessons (swapLessons st i j) i j).lessons = st.lessons := by
  have hilt : i < st.lessons.length := (List.getElem?_eq_some.mp hi).1
  have hjlt : j < st.lessons.length := (List.getElem?_eq_some.mp hj).1
  have hles1 : (swapLessons st i j).lessons =
      (st.lessons.set i { l1 with timeSlot := l2.timeSlot }).set j
        { l2 with timeSlot := l1.timeSlot } := swapLessons_lessons st hi hj
  have hi1 : (swapLessons st i j).lessons[i]? = some { l1 with timeSlot := l2.timeSlot } := by
    rw [hles1, List.getElem?_set_ne (Ne.symm hij), List.getElem?_set_self (by simpa using hilt)]
  have hj1 : (swapLessons st i j).lessons[j]? = some { l2 with timeSlot := l1.timeSlot } := by
    rw [hles1, List.getElem?_set_self (by simpa using hjlt)]
  have hles2 := swapLessons_lessons (swapLessons st i j) hi1 hj1
  have heta1 : ({ ({ l1 with timeSlot := l2.timeSlot } : Lesson) with
      timeSlot := ({ l2 with timeSlot := l1.timeSlot } : Lesson).timeSlot } : Lesson) = l1 := rfl
  have heta2 : ({ ({ l2 with timeSlot := l1.timeSlot } : Lesson) with
      timeSlot := ({ l1 with timeSlot := l2.timeSlot } : Lesson).timeSlot } : Lesson) = l2 := rfl
  rw [hles2, hles1, heta1, heta2]
  refine List.ext_getElem?_iff.mpr fun n => ?_
  by_cases hnj : n = j
  · subst hnj
    rw [List.getElem?_set_self (by simpa using hjlt)]
    exact hj.symm
  · rw [List.getElem?_set_ne (fun h => hnj h.symm)]
    by_cases hni : n = i
    · subst hni
      rw [List.getElem?_set_self (by simpa using hilt)]
      exact hi.symm
    · rw [List.getElem?_set_ne (fun h => hni h.symm),
        List.getElem?_set_ne (fun h => hnj h.symm),
        List.getElem?_set_ne (fun h => hni h.symm)]

/-- C10 counterexample: `_swap_lessons` removes a lesson from the middle of
its slot bucket and the rollback appends it at the end, so after
swap-then-undo the `lessons_by_slot` bucket is reordered, not restored to
its previous state. -/
def c10L1 : Lesson :=
  { subject := "А", teacher := { name := "УА" }, classOrGroup := "Г1",
    classroom := none, timeSlot := ⟨DayOfWeek.monday, 1⟩ }

def c10Mid : Lesson :=
  { subject := "Б", teacher := { name := "УБ" }, classOrGroup := "Г2",
    classroom := none, timeSlot := ⟨DayOfWeek.monday, 1⟩ }

def c10L2 : Lesson :=
  { subject := "В", teacher := { name := "УВ" }, classOrGroup := "Г3",
    classroom := none, timeSlot := ⟨DayOfWeek.tuesday, 2⟩ }

def c10State : OptState :=
  { lessons := [c10L1, c10Mid, c10L2]
    bySlot := buildBySlot [c10L1, c10Mid, c10L2]
    currentMetric := 0
    bestMetric := 0
    bestLessons := [] }

theorem c10_counterexample :
    (swapLessons (swapLessons c10State 0 2) 0 2).bySlot ⟨DayOfWeek.monday, 1⟩
      ≠ c10State.bySlot ⟨DayOfWeek.monday, 1⟩ := by
  decide

/-- C10 (amended): applying `_swap_lessons` to the same pair twice restores
every lesson's `time_slot` — the lesson list is restored exactly — and
restores each `lessons_by_slot` bucket as a multiset (the two swapped
lessons merely move to the end of their buckets), provided the two lessons
sit at distinct slots, each is present in its slot's bucket, and neither
slot's bucket already holds a copy of the other lesson re-timed to it. -/
theorem c10_amended :
    ∀ (st : OptState) (i j : Nat) (l1 l2 : Lesson),
      st.lessons[i]? = some l1 → st.lessons[j]? = some l2 → i ≠ j →
      l1.timeSlot ≠ l2.timeSlot →
      l1 ∈ st.bySlot l1.timeSlot → l2 ∈ st.bySlot l2.timeSlot →
      ({ l2 with timeSlot := l1.timeSlot } : Lesson) ∉ st.bySlot l1.timeSlot →
      ({ l1 with timeSlot := l2.timeSlot } : Lesson) ∉ st.bySlot l2.timeSlot →
      (swapLessons (swapLessons st i j) i j).lessons = st.lessons
        ∧ ∀ s, List.Perm ((swapLessons (swapLessons st i j) i j).bySlot s) (st.bySlot s) := by
  intro st i j l1 l2 hi hj hij hs hm1 hm2 hn2 hn1
  have hilt : i < st.lessons.length := (List.getElem?_eq_some.mp hi).1
  have hjlt : j < st.lessons.length := (List.getElem?_eq_some.mp hj).1
  have hles1 : (swapLessons st i j).lessons =
      (st.lessons.set i { l1 with timeSlot := l2.timeSlot }).set j
        { l2 with timeSlot := l1.timeSlot } := swapLessons_lessons st hi hj
  have hi1 : (swapLessons st i j).lessons[i]? = some { l1 with timeSlot := l2.timeSlot } := by
    rw [hles1, List.getElem?_set_ne (Ne.symm hij), List.getElem?_set_self (by simpa using hilt)]
  have hj1 : (swapLessons st i j).lessons[j]? = some { l2 with timeSlot := l1.timeSlot } := by
    rw [hles1, List.getElem?_set_self (by simpa using hjlt)]
  have hs1 : ({ l1 with timeSlot := l2.timeSlot } : Lesson).timeSlot
      ≠ ({ l2 with timeSlot := l1.timeSlot } : Lesson).timeSlot := Ne.symm hs
  have hles2 := swapLessons_lessons (swapLessons st i j) hi1 hj1
  have heta1 : ({ ({ l1 with timeSlot := l2.timeSlot } : Lesson) with
      timeSlot := ({ l2 with timeSlot := l1.timeSlot } : Lesson).timeSlot } : Lesson) = l1 := rfl
  have heta2 : ({ ({ l2 with timeSlot := l1.timeSlot } : Lesson) with
      timeSlot := ({ l1 with timeSlot := l2.timeSlot } : Lesson).timeSlot } : Lesson) = l2 := rfl
  constructor
  · exact swap_swap_lessons st hi hj hij
  · intro s
    have happ2 := swapLessons_bySlot_apply (swapLessons st i j) hi1 hj1 hs1 s
    have hproj1 : ({ l1 with timeSlot := l2.timeSlot } : Lesson).timeSlot = l2.timeSlot := rfl
    have hproj2 : ({ l2 with timeSlot := l1.timeSlot } : Lesson).timeSlot = l1.timeSlot := rfl
    rw [hproj1, hproj2, heta1, heta2] at happ2
    have happA := swapLessons_bySlot_apply st hi hj hs l2.timeSlot
    rw [if_neg (Ne.symm hs), if_pos rfl] at happA
    have happB := swapLessons_bySlot_apply st hi hj hs l1.timeSlot
    rw [if_pos rfl] at happB
    rw [happA, happB] at happ2
    rw [happ2]
    by_cases h2 : s = l2.timeSlot
    · rw [if_pos h2]
      subst h2
      have hnotin : ({ l1 with timeSlot := l2.timeSlot } : Lesson)
          ∉ (st.bySlot l2.timeSlot).erase l2 :=
        fun hmem => hn1 (List.mem_of_mem_erase hmem)
      rw [List.erase_append_right _ hnotin, List.erase_cons_head, List.append_nil]
      exact (List.perm_append_singleton _ _).trans (List.perm_cons_erase hm2).symm
    · rw [if_neg h2]
      by_cases h1 : s = l1.timeSlot
      · rw [if_pos h1]
        subst h1
        have hnotin : ({ l2 with timeSlot := l1.timeSlot } : Lesson)
            ∉ (st.bySlot l1.timeSlot).erase l1 :=
          fun hmem => hn2 (List.mem_of_mem_erase hmem)
        rw [List.erase_append_right _ hnotin, List.erase_cons_head, List.append_nil]
        exact (List.perm_append_singleton _ _).trans (List.perm_cons_erase hm1).symm
      · rw [if_neg h1]
        rw [swapLessons_bySlot_apply st hi hj hs s, if_neg h1, if_neg h2]

/-- C10 witness: the amended rollback statement on the concrete three-lesson
state. -/
theorem c10_amended_witness :
    (swapLessons (swapLessons c10State 0 2) 0 2).lessons = c10State.lessons
      ∧ List.Perm ((swapLessons (swapLessons c10State 0 2) 0 2).bySlot ⟨DayOfWeek.monday, 1⟩)
          (c10State.bySlot ⟨DayOfWeek.monday, 1⟩) := by
  have h := c10_amended c10State 0 2 c10L1 c10L2 (by decide) (by decide) (by decide)
    (by decide) (by decide) (by decide) (by decide) (by decide)
  exact ⟨h.1, h.2 ⟨DayOfWeek.monday, 1⟩⟩

/-! ## Claim C2: the annealing loop's best-snapshot bookkeeping

The statements below are about `optimize` for an arbitrary metric `μ`, an
arbitrary starting schedule and an arbitrary sequence of iteration
outcomes. -/

/-- `_swap_lessons` only touches the lesson list and the slot index; the
metrics, snapshot and counters pass through. -/
theorem swapLessons_carry (st : OptState) (i j : Nat) :
    (swapLessons st i j).bestMetric = st.bestMetric
    ∧ (swapLessons st i j).currentMetric = st.currentMetric
    ∧ (swapLessons st i j).bestLessons = st.bestLessons
    ∧ (swapLessons st i j).noImprovement = st.noImprovement
    ∧ (swapLessons st i j).improvements = st.improvements
    ∧ (swapLessons st i j).acceptedWorse = st.acceptedWorse
    ∧ (swapLessons st i j).temperature = st.temperature := by
  cases hi : st.lessons[i]? <;> cases hj : st.lessons[j]? <;>
    simp [swapLessons, hi, hj]

theorem optStep_best_le (μ : List Lesson → ℚ) (st : OptState) (ch : IterChoice) :
    (optStep μ st ch).bestMetric ≤ st.bestMetric := by
  unfold optStep
  rcases hpick : ch.pick with _ | ⟨i, j⟩
  · simp only [hpick]
    exact le_refl st.bestMetric
  simp only [hpick]
  cases hi : st.lessons[i]? with
  | none =>
    simp only [hi]
    exact le_refl st.bestMetric
  | some l1 =>
  cases hj : st.lessons[j]? with
  | none =>
    simp only [hi, hj]
    exact le_refl st.bestMetric
  | some l2 =>
  simp only [hi, hj]
  split_ifs with hv hd hb
  · simp only
    exact le_of_lt hb
  · simp only
    rw [(swapLessons_carry st i j).1]
  · simp only
    rw [(swapLessons_carry st i j).1]
  · simp only
    rw [(swapLessons_carry (swapLessons st i j) i j).1, (swapLessons_carry st i j).1]
  · exact le_refl st.bestMetric

/-- The bookkeeping invariant of the annealing loop: the best metric is a
lower bound for the current metric, and the best snapshot really has the
best metric. -/
def BestInv (μ : List Lesson → ℚ) (st : OptState) : Prop :=
  st.bestMetric ≤ st.currentMetric ∧ μ st.bestLessons = st.bestMetric

theorem optStep_bestInv (μ : List Lesson → ℚ) (st : OptState) (ch : IterChoice)
    (h : BestInv μ st) : BestInv μ (optStep μ st ch) := by
  unfold optStep
  rcases hpick : ch.pick with _ | ⟨i, j⟩
  · simpa only [hpick] using h
  simp only [hpick]
  cases hi : st.lessons[i]? with
  | none => simpa only [hi] using h
  | some l1 =>
  cases hj : st.lessons[j]? with
  | none => simpa only [hi, hj] using h
  | some l2 =>
  simp only [hi, hj]
  obtain ⟨hc1, hc2, hc3, _, _, _, _⟩ := swapLessons_carry st i j
  split_ifs with hv hd hb
  · exact ⟨le_refl _, rfl⟩
  · refine ⟨?_, ?_⟩
    · simp only
      rw [hc1]
      exact not_lt.mp hb
    · simp only
      rw [hc1, hc3]
      exact h.2
  · refine ⟨?_, ?_⟩
    · simp only
      rw [hc1]
      have hle : st.currentMetric ≤ μ (swapLessons st i j).lessons := by
        have := not_lt.mp hd
        linarith
      exact le_trans h.1 hle
    · simp only
      rw [hc1, hc3]
      exact h.2
  · obtain ⟨hd1, hd2, hd3, _, _, _, _⟩ := swapLessons_carry (swapLessons st i j) i j
    refine ⟨?_, ?_⟩
    · simp only
      rw [hd1, hc1, hd2, hc2]
      exact h.1
    · simp only
      rw [hd1, hc1, hd3, hc3]
      exact h.2
  · exact h

theorem optStep_best_le_iterMetric (μ : List Lesson → ℚ) (st : OptState) (ch : IterChoice)
    (m : ℚ) (hinv : BestInv μ st) (hm : iterMetric μ st ch = some m) :
    (optStep μ st ch).bestMetric ≤ m := by
  unfold optStep
  unfold iterMetric at hm
  rcases hpick : ch.pick with _ | ⟨i, j⟩
  · simp only [hpick] at hm
    exact Option.noConfusion hm
  simp only [hpick] at hm ⊢
  cases hi : st.lessons[i]? with
  | none =>
    simp only [hi] at hm
    exact Option.noConfusion hm
  | some l1 =>
  cases hj : st.lessons[j]? with
  | none =>
    simp only [hi, hj] at hm
    exact Option.noConfusion hm
  | some l2 =>
  simp only [hi, hj] at hm ⊢
  obtain ⟨hc1, hc2, hc3, _, _, _, _⟩ := swapLessons_carry st i j
  split_ifs at hm ⊢ with hv hd hb
  · simp only
    injection hm with hm
    exact le_of_eq hm
  · simp only
    rw [hc1]
    injection hm with hm
    exact hm ▸ not_lt.mp hb
  · simp only
    rw [hc1]
    injection hm with hm
    have hle : st.currentMetric ≤ μ (swapLessons st i j).lessons := by
      have := not_lt.mp hd
      linarith
    rw [← hm]
    exact le_trans hinv.1 hle
  · obtain ⟨hd1, _, _, _, _, _, _⟩ := swapLessons_carry (swapLessons st i j) i j
    simp only
    rw [hd1, hc1]
    injection hm with hm
    have hle : st.currentMetric ≤ μ (swapLessons st i j).lessons := by
      have := not_lt.mp hd
      linarith
    rw [← hm]
    exact le_trans hinv.1 hle

theorem optStep_best_cases (μ : List Lesson → ℚ) (st : OptState) (ch : IterChoice) :
    (optStep μ st ch).bestMetric = st.bestMetric
      ∨ iterMetric μ st ch = some ((optStep μ st ch).bestMetric) := by
  unfold optStep iterMetric
  rcases hpick : ch.pick with _ | ⟨i, j⟩
  · simp only [hpick]
    left
    trivial
  simp only [hpick]
  cases hi : st.lessons[i]? with
  | none =>
    simp only [hi]
    left
    trivial
  | some l1 =>
  cases hj : st.lessons[j]? with
  | none =>
    simp only [hi, hj]
    left
    trivial
  | some l2 =>
  simp only [hi, hj]
  obtain ⟨hc1, _, _, _, _, _, _⟩ := swapLessons_carry st i j
  split_ifs with hv hd hb
  · exact Or.inr rfl
  · exact Or.inl hc1
  · exact Or.inl hc1
  · obtain ⟨hd1, _, _, _, _, _, _⟩ := swapLessons_carry (swapLessons st i j) i j
    exact Or.inl (hd1.trans hc1)
  · exact Or.inl rfl

theorem optimizeLoop_best_le (μ : List Lesson → ℚ) :
    ∀ (choices : List IterChoice) (st : OptState),
      (optimizeLoop μ choices st).bestMetric ≤ st.bestMetric := by
  intro choices
  induction choices with
  | nil => intro st; exact le_refl _
  | cons ch rest ih =>
    intro st
    simp only [optimizeLoop]
    split
    · exact optStep_best_le μ st ch
    · exact le_trans (ih (optStep μ st ch)) (optStep_best_le μ st ch)

theorem optimizeLoop_observed (μ : List Lesson → ℚ) :
    ∀ (choices : List IterChoice) (st : OptState), BestInv μ st →
      (∀ m ∈ observedMetrics μ choices st, (optimizeLoop μ choices st).bestMetric ≤ m)
        ∧ ((optimizeLoop μ choices st).bestMetric = st.bestMetric
            ∨ (optimizeLoop μ choices st).bestMetric ∈ observedMetrics μ choices st)
        ∧ BestInv μ (optimizeLoop μ choices st) := by
  intro choices
  induction choices with
  | nil =>
    intro st hinv
    exact ⟨fun m hm => absurd hm (by simp [observedMetrics]), Or.inl rfl, hinv⟩
  | cons ch rest ih =>
    intro st hinv
    have hinv1 : BestInv μ (optStep μ st ch) := optStep_bestInv μ st ch hinv
    simp only [optimizeLoop, observedMetrics]
    split
    · refine ⟨?_, ?_, hinv1⟩
      · intro m hm
        cases hmm : iterMetric μ st ch with
        | none => simp [hmm] at hm
        | some m0 =>
          simp only [hmm, List.mem_singleton] at hm
          subst hm
          exact optStep_best_le_iterMetric μ st ch m hinv hmm
      · rcases optStep_best_cases μ st ch with h | h
        · exact Or.inl h
        · refine Or.inr ?_
          rw [h]
          simp
    · obtain ⟨ihb, ihc, ihi⟩ := ih (optStep μ st ch) hinv1
      refine ⟨?_, ?_, ihi⟩
      · intro m hm
        rw [List.mem_append] at hm
        rcases hm with hm | hm
        · cases hmm : iterMetric μ st ch with
          | none => simp [hmm] at hm
          | some m0 =>
            simp only [hmm, List.mem_singleton] at hm
            subst hm
            exact le_trans (optimizeLoop_best_le μ rest (optStep μ st ch))
              (optStep_best_le_iterMetric μ st ch m hinv hmm)
        · exact ihb m hm
      · rcases ihc with h | h
        · rcases optStep_best_cases μ st ch with h2 | h2
          · exact Or.inl (h.trans h2)
          · refine Or.inr ?_
            rw [List.mem_append]
            refine Or.inl ?_
            rw [h, h2]
            simp
        · refine Or.inr ?_
          rw [List.mem_append]
          exact Or.inr h

/-- C2: along a Phase-3 run (any metric `μ`, any starting schedule, any
sequence of sampled pairs and Metropolis draws) the best-snapshot metric
never increases at any iteration; the returned schedule is the recorded best
snapshot, its metric is the final best metric, and that value is a lower
bound of every metric observed during the run and is itself either the
initial metric or one of the observed metrics — i.e. the result is the best
snapshot ever observed, not the end-of-run working state. -/
theorem c2_best_snapshot :
    ∀ (μ : List Lesson → ℚ) (lessons0 : List Lesson) (choices : List IterChoice),
      (∀ (st : OptState) (ch : IterChoice), (optStep μ st ch).bestMetric ≤ st.bestMetric)
        ∧ optimize μ lessons0 choices = (optimizeRun μ lessons0 choices).bestLessons
        ∧ μ (optimize μ lessons0 choices) = (optimizeRun μ lessons0 choices).bestMetric
        ∧ (∀ m ∈ observedMetrics μ choices (initOptState μ lessons0),
            (optimizeRun μ lessons0 choices).bestMetric ≤ m)
        ∧ ((optimizeRun μ lessons0 choices).bestMetric = μ lessons0
            ∨ (optimizeRun μ lessons0 choices).bestMetric
                ∈ observedMetrics μ choices (initOptState μ lessons0)) := by
  intro μ lessons0 choices
  have hinv0 : BestInv μ (initOptState μ lessons0) := ⟨le_refl _, rfl⟩
  obtain ⟨hb, hc, hi⟩ := optimizeLoop_observed μ choices (initOptState μ lessons0) hinv0
  refine ⟨fun st ch => optStep_best_le μ st ch, rfl, hi.2, hb, ?_⟩
  rcases hc with h | h
  · exact Or.inl h
  · exact Or.inr h

/-! ## Preservation lemmas for Phases 1 and 2 -/

theorem foldl_preserve {β : Type} (P : Schedule → Prop) (f : Schedule → β → Schedule)
    (hf : ∀ s b, P s → P (f s b)) :
    ∀ (bs : List β) (s : Schedule), P s → P (bs.foldl f s) := by
  intro bs
  induction bs with
  | nil => intro s h; exact h
  | cons b rest ih => intro s h; exact ih (f s b) (hf s b h)

theorem findAvailableClassroom_some {classrooms : List Classroom} {s : Schedule}
    {slot : TimeSlot} {need : Nat} {c : Classroom}
    (h : findAvailableClassroom classrooms s slot need = some c) :
    need ≤ c.capacity ∧ s.isClassroomBusy c slot = false := by
  have hmem := pickSmallest_mem h
  rw [List.mem_filter] at hmem
  obtain ⟨_, hpred⟩ := hmem
  rw [Bool.and_eq_true, decide_eq_true_eq, Bool.not_eq_true'] at hpred
  exact hpred

theorem isClassroomBusy_false_no_lesson {s : Schedule} {c : Classroom} {slot : TimeSlot}
    (h : s.isClassroomBusy c slot = false) :
    ∀ l ∈ s.lessons, ¬(l.classroom = some c ∧ l.timeSlot = slot) := by
  intro l hl hcon
  rw [Schedule.isClassroomBusy, List.any_eq_false] at h
  have := h l hl
  simp [hcon.1, hcon.2] at this

/-- One Phase-1 placement step keeps the schedule free of classroom
double-bookings and of unavailable-day lessons. -/
theorem placeGroupsInSlot_pres (classrooms : List Classroom) (groups : List EGEPracticeGroup)
    (slotIdx : Nat) (slot : TimeSlot) (s : Schedule)
    (h : noRoomClash s.lessons ∧ teacherDaysOk s.lessons) :
    noRoomClash (placeGroupsInSlot classrooms groups slotIdx slot s).lessons
      ∧ teacherDaysOk (placeGroupsInSlot classrooms groups slotIdx slot s).lessons := by
  unfold placeGroupsInSlot
  refine foldl_preserve (fun sch => noRoomClash sch.lessons ∧ teacherDaysOk sch.lessons)
    _ ?_ groups s h
  intro sch g hP
  split_ifs with h1 h2
  · exact hP
  · exact hP
  · rw [Bool.not_eq_true', Bool.not_eq_false] at h2
    constructor
    · rw [Schedule.addLesson, noRoomClash, List.pairwise_append]
      refine ⟨hP.1, List.pairwise_singleton _ _, ?_⟩
      intro a ha b hb
      rw [List.mem_singleton] at hb
      subst hb
      intro c hac hbc
      simp only
      cases hroom : findAvailableClassroom classrooms sch slot g.students.length with
      | none =>
        rw [hroom] at hbc
        exact absurd hbc (by simp)
      | some c0 =>
        rw [hroom] at hbc
        have hc0 : c0 = c := by injection hbc
        subst hc0
        have hfree := (findAvailableClassroom_some hroom).2
        intro heq
        exact isClassroomBusy_false_no_lesson hfree a ha ⟨hac, heq⟩
    · intro l hl
      rw [Schedule.addLesson] at hl
      rw [List.mem_append] at hl
      rcases hl with hl | hl
      · exact hP.2 l hl
      · rw [List.mem_singleton] at hl
        subst hl
        exact h2

/-- Phase 1 output: no classroom double-booking, and every lesson's teacher
is available on the lesson's day. -/
theorem placeEgePractices_pres (classrooms : List Classroom)
    (groups : List EGEPracticeGroup) (egeSlots : List TimeSlot) :
    noRoomClash (placeEgePractices classrooms groups egeSlots).lessons
      ∧ teacherDaysOk (placeEgePractices classrooms groups egeSlots).lessons := by
  unfold placeEgePractices
  refine foldl_preserve (fun sch => noRoomClash sch.lessons ∧ teacherDaysOk sch.lessons)
    _ ?_ egeSlots.enum ⟨[]⟩ ⟨List.Pairwise.nil, by intro l hl; exact absurd hl (by simp)⟩
  intro sch p hP
  exact placeGroupsInSlot_pres classrooms groups p.1 p.2 sch hP

theorem findBestSlot_some_available {egeSlots : List TimeSlot} {s : Schedule}
    {subj : Subject} {scored : List (ℚ × TimeSlot)} {daysUsed : List DayOfWeek}
    {best : TimeSlot}
    (h : findBestSlot egeSlots s subj scored daysUsed = some best) :
    isSlotAvailable egeSlots s subj best = true := by
  unfold findBestSlot at h
  cases hf : scored.find? (fun p =>
      !(daysUsed.contains p.2.day) && isSlotAvailable egeSlots s subj p.2) with
  | some p =>
    simp only [hf, Option.some.injEq] at h
    subst h
    have := List.find?_some hf
    rw [Bool.and_eq_true] at this
    exact this.2
  | none =>
    simp only [hf] at h
    cases hg : scored.find? (fun p => isSlotAvailable egeSlots s subj p.2) with
    | none =>
      simp only [hg] at h
      exact absurd h (by simp)
    | some q =>
      simp only [hg, Option.map_some', Option.some.injEq] at h
      subst h
      simpa using List.find?_some hg

theorem findClassroom_some_free {classrooms : List Classroom} {s : Schedule}
    {subj : Subject} {slot : TimeSlot} {c : Classroom}
    (h : findClassroom classrooms s subj slot = some c) :
    classroomBusyNumber s c.number slot = false := by
  unfold findClassroom at h
  have hfall : ∀ (hc : classrooms.find? (fun c => !(classroomBusyNumber s c.number slot))
      = some c), classroomBusyNumber s c.number slot = false := by
    intro hc
    have := List.find?_some hc
    rwa [Bool.not_eq_true'] at this
  cases hh : subj.teacher.homeClassroom with
  | none =>
    simp only [hh] at h
    exact hfall h
  | some hn =>
    simp only [hh] at h
    cases hfind : classrooms.find? (fun c => decide (c.number = hn)) with
    | none =>
      simp only [hfind] at h
      exact hfall h
    | some home =>
      simp only [hfind] at h
      split_ifs at h with hfree
      · injection h with h
        subst h
        rwa [Bool.not_eq_true'] at hfree
      · exact hfall h

theorem isSlotAvailable_parts {egeSlots : List TimeSlot} {s : Schedule} {subj : Subject}
    {slot : TimeSlot} (h : isSlotAvailable egeSlots s subj slot = true) :
    subj.teacher.isAvailable slot.day = true
      ∧ teacherBusyName s subj.teacher.name slot = false
      ∧ (∀ cn ∈ subj.classes, classBusyLabel s cn slot = false)
      ∧ egeSlots.contains slot = false := by
  rw [isSlotAvailable, Bool.and_eq_true, Bool.and_eq_true, Bool.and_eq_true,
    Bool.not_eq_true', Bool.not_eq_true', List.all_eq_true] at h
  refine ⟨h.1.1.1, h.1.1.2, ?_, h.2⟩
  intro cn hcn
  have := h.1.2 cn hcn
  rwa [Bool.not_eq_true'] at this

/-- Adding the lesson `_place_subject` builds for an available slot preserves
all three no-clash invariants and the availability invariant. -/
theorem phase2AddLesson_pres (egeSlots : List TimeSlot) (classrooms : List Classroom)
    (subj : Subject) (st : Phase2State) (best : TimeSlot)
    (hcl : subj.classes ≠ [])
    (havail : isSlotAvailable egeSlots st.schedule subj best = true)
    (hP : noTeacherClash st.schedule.lessons ∧ noLabelClash st.schedule.lessons
      ∧ noRoomClash st.schedule.lessons ∧ teacherDaysOk st.schedule.lessons) :
    noTeacherClash (st.schedule.addLesson
        { subject := subj.name, teacher := subj.teacher, classOrGroup := classNameOf subj,
          classroom := findClassroom classrooms st.schedule subj best, timeSlot := best,
          isEgePractice := false }).lessons
      ∧ noLabelClash (st.schedule.addLesson
          { subject := subj.name, teacher := subj.teacher, classOrGroup := classNameOf subj,
            classroom := findClassroom classrooms st.schedule subj best, timeSlot := best,
            isEgePractice := false }).lessons
      ∧ noRoomClash (st.schedule.addLesson
          { subject := subj.name, teacher := subj.teacher, classOrGroup := classNameOf subj,
            classroom := findClassroom classrooms st.schedule subj best, timeSlot := best,
            isEgePractice := false }).lessons
      ∧ teacherDaysOk (st.schedule.addLesson
          { subject := subj.name, teacher := subj.teacher, classOrGroup := classNameOf subj,
            classroom := findClassroom classrooms st.schedule subj best, timeSlot := best,
            isEgePractice := false }).lessons := by
  obtain ⟨ha1, ha2, ha3, ha4⟩ := isSlotAvailable_parts havail
  refine ⟨?_, ?_, ?_, ?_⟩
  · rw [Schedule.addLesson, noTeacherClash, List.pairwise_append]
    refine ⟨hP.1, List.pairwise_singleton _ _, ?_⟩
    intro a hma b hmb
    rw [List.mem_singleton] at hmb
    subst hmb
    intro hname heq
    rw [teacherBusyName, List.any_eq_false] at ha2
    have := ha2 a hma
    simp only at hname heq
    simp [hname, heq] at this
  · rw [Schedule.addLesson, noLabelClash, List.pairwise_append]
    refine ⟨hP.2.1, List.pairwise_singleton _ _, ?_⟩
    intro a hma b hmb
    rw [List.mem_singleton] at hmb
    subst hmb
    intro hlabel heq
    have hhead : classNameOf subj ∈ subj.classes := by
      cases hc : subj.classes with
      | nil => exact absurd hc hcl
      | cons c0 rest => rw [classNameOf, hc]; exact List.mem_cons_self _ _
    have := ha3 (classNameOf subj) hhead
    rw [classBusyLabel, List.any_eq_false] at this
    have h2 := this a hma
    simp only at hlabel heq
    simp [hlabel, heq] at h2
  · rw [Schedule.addLesson, noRoomClash, List.pairwise_append]
    refine ⟨hP.2.2.1, List.pairwise_singleton _ _, ?_⟩
    intro a hma b hmb
    rw [List.mem_singleton] at hmb
    subst hmb
    intro c hac hbc
    simp only at hbc ⊢
    cases hroom : findClassroom classrooms st.schedule subj best with
    | none =>
      rw [hroom] at hbc
      exact absurd hbc (by simp)
    | some c0 =>
      rw [hroom] at hbc
      have hc0 : c0 = c := by injection hbc
      subst hc0
      have hfree := findClassroom_some_free hroom
      rw [classroomBusyNumber, List.any_eq_false] at hfree
      have := hfree a hma
      intro heq
      rw [hac, heq] at this
      simp at this
  · intro l hl
    rw [Schedule.addLesson, List.mem_append] at hl
    rcases hl with hl | hl
    · exact hP.2.2.2 l hl
    · rw [List.mem_singleton] at hl
      subst hl
      exact ha1

/-- The conjunction of the three no-clash invariants and the availability
invariant, as preserved by Phase 2. -/
def phase2Inv (s : Schedule) : Prop :=
  noTeacherClash s.lessons ∧ noLabelClash s.lessons
    ∧ noRoomClash s.lessons ∧ teacherDaysOk s.lessons

theorem placeSubjectHours_pres (egeSlots : List TimeSlot) (classrooms : List Classroom)
    (subj : Subject) (hcl : subj.classes ≠ []) :
    ∀ (n : Nat) (scored : List (ℚ × TimeSlot)) (daysUsed : List DayOfWeek)
      (st : Phase2State), phase2Inv st.schedule →
      phase2Inv (placeSubjectHours egeSlots classrooms subj n scored daysUsed st).schedule := by
  intro n
  induction n with
  | zero => intro scored daysUsed st h; exact h
  | succ n ih =>
    intro scored daysUsed st h
    rw [placeSubjectHours]
    cases hbest : findBestSlot egeSlots st.schedule subj scored daysUsed with
    | none => exact ih scored daysUsed _ h
    | some best =>
      refine ih _ _ _ ?_
      have havail := findBestSlot_some_available hbest
      exact phase2AddLesson_pres egeSlots classrooms subj st best hcl havail
        ⟨h.1, h.2.1, h.2.2.1, h.2.2.2⟩

theorem placeSubject_pres (egeSlots : List TimeSlot) (classrooms : List Classroom)
    (subj : Subject) (st : Phase2State) (hcl : subj.classes ≠ [])
    (h : phase2Inv st.schedule) :
    phase2Inv (placeSubject egeSlots classrooms subj st).schedule := by
  rw [placeSubject]
  exact placeSubjectHours_pres egeSlots classrooms subj hcl subj.hoursPerWeek _ [] st h

theorem groupByClass_subset {subjects : List Subject} {x : Subject}
    (h : x ∈ groupByClass subjects) : x ∈ subjects := by
  rw [groupByClass] at h
  rw [List.mem_flatMap] at h
  obtain ⟨cn, _, hx⟩ := h
  exact List.mem_of_mem_filter hx

theorem sortByPriority_mem {subjects : List Subject} {x : Subject}
    (h : x ∈ sortByPriority subjects) : x ∈ subjects := by
  rw [sortByPriority] at h
  exact (List.perm_insertionSort _ subjects).mem_iff.mp h

/-- Phase 2 (`place_all_mandatory_subjects`) preserves all four invariants,
provided every subject names at least one cohort (the lesson's label is the
first cohort, which the availability check then covers). -/
theorem placeAllMandatorySubjects_pres (egeSlots : List TimeSlot)
    (classrooms : List Classroom) (subjects : List Subject) (st : Phase2State)
    (hcl : ∀ subj ∈ subjects, subj.classes ≠ [])
    (h : phase2Inv st.schedule) :
    phase2Inv (placeAllMandatorySubjects egeSlots classrooms subjects st).schedule := by
  rw [placeAllMandatorySubjects]
  have hsub : ∀ subj ∈ groupByClass (sortByPriority (subjects.filter
      (fun s => decide (s.subjectType = SubjectType.mandatory)))), subj.classes ≠ [] := by
    intro subj hmem
    have h1 := groupByClass_subset hmem
    have h2 := sortByPriority_mem h1
    exact hcl subj (List.mem_of_mem_filter h2)
  revert st
  generalize groupByClass (sortByPriority (subjects.filter
    (fun s => decide (s.subjectType = SubjectType.mandatory)))) = todo at hsub
  induction todo with
  | nil => intro st h; exact h
  | cons subj rest ih =>
    intro st h
    rw [List.foldl_cons]
    exact ih (fun x hx => hsub x (List.mem_cons_of_mem _ hx)) _
      (placeSubject_pres egeSlots classrooms subj st (hsub subj (List.mem_cons_self _ _)) h)

/-! ## Phase-3 swap safety -/

/-- The index soundness the optimizer relies on: every lesson of the
schedule occurs in its slot's bucket. -/
def MemInv (st : OptState) : Prop :=
  ∀ l ∈ st.lessons, l ∈ st.bySlot l.timeSlot

theorem nodup_of_noTeacherClash {ls : List Lesson} (h : noTeacherClash ls) :
    ls.Nodup := by
  refine h.imp ?_
  intro a b hab he
  subst he
  exact hab rfl rfl

theorem pairwise_symm_iff_get {R : Lesson → Lesson → Prop}
    (hsym : ∀ {a b : Lesson}, R a b → R b a) (ls : List Lesson) :
    ls.Pairwise R ↔ ∀ (k m : Nat) (a b : Lesson), k ≠ m →
      ls[k]? = some a → ls[m]? = some b → R a b := by
  rw [List.pairwise_iff_getElem]
  constructor
  · intro h k m a b hkm hk hm
    obtain ⟨hk1, hk2⟩ := List.getElem?_eq_some.mp hk
    obtain ⟨hm1, hm2⟩ := List.getElem?_eq_some.mp hm
    rcases Nat.lt_or_ge k m with hlt | hge
    · exact hk2 ▸ hm2 ▸ h k m hk1 hm1 hlt
    · have hlt2 : m < k := by omega
      exact hsym (hm2 ▸ hk2 ▸ h m k hm1 hk1 hlt2)
  · intro h k m hk hm hkm
    exact h k m _ _ (by omega) (List.getElem?_eq_getElem hk) (List.getElem?_eq_getElem hm)

theorem nodup_position_unique {ls : List Lesson} (hnd : ls.Nodup) {k m : Nat} {v : Lesson}
    (hk : ls[k]? = some v) (hm : ls[m]? = some v) : k = m := by
  have hklt := (List.getElem?_eq_some.mp hk).1
  exact List.getElem?_inj hklt hnd (hk.trans hm.symm)

/-- If a swapped-in lesson value still occurs in the swapped lesson list at a
position other than the two swapped ones, the original list had it twice. -/
theorem mem_swapped_ne {st : OptState} {i j : Nat} {l1 l2 x : Lesson}
    (hi : st.lessons[i]? = some l1) (hj : st.lessons[j]? = some l2) (hij : i ≠ j)
    (hnd : st.lessons.Nodup)
    (hx : x ∈ (swapLessons st i j).lessons)
    (hx1 : x ≠ ({ l1 with timeSlot := l2.timeSlot } : Lesson))
    (hx2 : x ≠ ({ l2 with timeSlot := l1.timeSlot } : Lesson)) :
    x ≠ l1 ∧ x ≠ l2 := by
  rw [swapLessons_lessons st hi hj] at hx
  have hilt : i < st.lessons.length := (List.getElem?_eq_some.mp hi).1
  have hjlt : j < st.lessons.length := (List.getElem?_eq_some.mp hj).1
  obtain ⟨k, hk⟩ := List.mem_iff_getElem?.mp hx
  have hkj : k ≠ j := by
    intro he
    subst he
    rw [List.getElem?_set_self (by simpa using hjlt)] at hk
    exact hx2 (by injection hk with hk; exact hk.symm)
  have hki : k ≠ i := by
    intro he
    subst he
    rw [List.getElem?_set_ne (fun h => hkj h.symm),
      List.getElem?_set_self (by simpa using hilt)] at hk
    exact hx1 (by injection hk with hk; exact hk.symm)
  rw [List.getElem?_set_ne (fun h => hkj h.symm),
    List.getElem?_set_ne (fun h => hki h.symm)] at hk
  constructor
  · intro he
    subst he
    exact hki (nodup_position_unique hnd hk hi)
  · intro he
    subst he
    exact hkj (nodup_position_unique hnd hk hj)

theorem swapLessons_memInv (st : OptState) {i j : Nat} {l1 l2 : Lesson}
    (hi : st.lessons[i]? = some l1) (hj : st.lessons[j]? = some l2) (hij : i ≠ j)
    (hslot : l1.timeSlot ≠ l2.timeSlot) (hnd : st.lessons.Nodup) (hmem : MemInv st) :
    MemInv (swapLessons st i j) := by
  intro x hx
  by_cases hx2 : x = ({ l2 with timeSlot := l1.timeSlot } : Lesson)
  · subst hx2
    have : ({ l2 with timeSlot := l1.timeSlot } : Lesson).timeSlot = l1.timeSlot := rfl
    rw [this, swapLessons_bySlot_apply st hi hj hslot l1.timeSlot, if_pos rfl]
    exact List.mem_append.mpr (Or.inr (List.mem_singleton.mpr rfl))
  by_cases hx1 : x = ({ l1 with timeSlot := l2.timeSlot } : Lesson)
  · subst hx1
    have hpr : ({ l1 with timeSlot := l2.timeSlot } : Lesson).timeSlot = l2.timeSlot := rfl
    rw [hpr, swapLessons_bySlot_apply st hi hj hslot l2.timeSlot,
      if_neg (Ne.symm hslot), if_pos rfl]
    exact List.mem_append.mpr (Or.inr (List.mem_singleton.mpr rfl))
  obtain ⟨hne1, hne2⟩ := mem_swapped_ne hi hj hij hnd hx hx1 hx2
  have hxls : x ∈ st.lessons := by
    rw [swapLessons_lessons st hi hj] at hx
    rcases List.mem_or_eq_of_mem_set hx with h1 | h1
    · rcases List.mem_or_eq_of_mem_set h1 with h2 | h2
      · exact h2
      · exact absurd h2 hx1
    · exact absurd h1 hx2
  have hbase : x ∈ st.bySlot x.timeSlot := hmem x hxls
  rw [swapLessons_bySlot_apply st hi hj hslot x.timeSlot]
  by_cases hc1 : x.timeSlot = l1.timeSlot
  · rw [if_pos hc1]
    refine List.mem_append.mpr (Or.inl ?_)
    rw [List.mem_erase_of_ne hne1]
    rw [hc1] at hbase
    exact hbase
  · rw [if_neg hc1]
    by_cases hc2 : x.timeSlot = l2.timeSlot
    · rw [if_pos hc2]
      refine List.mem_append.mpr (Or.inl ?_)
      rw [List.mem_erase_of_ne hne2]
      rw [hc2] at hbase
      exact hbase
    · rw [if_neg hc2]
      exact hbase

/-- Key-based (teacher name / label) clash freedom is preserved by a legal
swap: the two `_can_swap` occupancy checks exclude exactly the clashes the
exchange could create. -/
theorem swap_safety_key (f : Lesson → String)
    (hf : ∀ (l : Lesson) (t : TimeSlot), f { l with timeSlot := t } = f l)
    (st : OptState) {i j : Nat} {l1 l2 : Lesson}
    (hi : st.lessons[i]? = some l1) (hj : st.lessons[j]? = some l2) (hij : i ≠ j)
    (hmem : MemInv st)
    (hP : st.lessons.Pairwise (fun a b => f a = f b → a.timeSlot ≠ b.timeSlot))
    (hnd : st.lessons.Nodup)
    (hslot : l1.timeSlot ≠ l2.timeSlot)
    (h2cl : ∀ o ∈ st.bySlot l2.timeSlot, o ≠ l2 → f o ≠ f l1)
    (h1cl : ∀ o ∈ st.bySlot l1.timeSlot, o ≠ l1 → f o ≠ f l2) :
    (swapLessons st i j).lessons.Pairwise
      (fun a b => f a = f b → a.timeSlot ≠ b.timeSlot) := by
  have hsym : ∀ {a b : Lesson},
      (f a = f b → a.timeSlot ≠ b.timeSlot) → (f b = f a → b.timeSlot ≠ a.timeSlot) :=
    fun hab h => Ne.symm (hab h.symm)
  have hilt : i < st.lessons.length := (List.getElem?_eq_some.mp hi).1
  have hjlt : j < st.lessons.length := (List.getElem?_eq_some.mp hj).1
  have hPg := (pairwise_symm_iff_get hsym st.lessons).mp hP
  rw [swapLessons_lessons st hi hj, pairwise_symm_iff_get hsym]
  intro k m a b hkm hk hm
  have hvj : ((st.lessons.set i { l1 with timeSlot := l2.timeSlot }).set j
      { l2 with timeSlot := l1.timeSlot })[j]? = some { l2 with timeSlot := l1.timeSlot } :=
    List.getElem?_set_self (by simpa using hjlt)
  have hvi : ((st.lessons.set i { l1 with timeSlot := l2.timeSlot }).set j
      { l2 with timeSlot := l1.timeSlot })[i]? = some { l1 with timeSlot := l2.timeSlot } := by
    rw [List.getElem?_set_ne (Ne.symm hij)]
    exact List.getElem?_set_self (by simpa using hilt)
  have hvother : ∀ (n : Nat), n ≠ i → n ≠ j →
      ((st.lessons.set i { l1 with timeSlot := l2.timeSlot }).set j
        { l2 with timeSlot := l1.timeSlot })[n]? = st.lessons[n]? := by
    intro n hni hnj
    rw [List.getElem?_set_ne (fun h => hnj h.symm),
      List.getElem?_set_ne (fun h => hni h.symm)]
  -- the clash argument for a swapped-in lesson against an untouched lesson
  have hside : ∀ (n : Nat) (c : Lesson), n ≠ i → n ≠ j → st.lessons[n]? = some c →
      (f { l1 with timeSlot := l2.timeSlot } = f c →
        ({ l1 with timeSlot := l2.timeSlot } : Lesson).timeSlot ≠ c.timeSlot)
      ∧ (f { l2 with timeSlot := l1.timeSlot } = f c →
        ({ l2 with timeSlot := l1.timeSlot } : Lesson).timeSlot ≠ c.timeSlot) := by
    intro n c hni hnj hn
    have hcls : c ∈ st.lessons := List.getElem?_mem hn
    constructor
    · intro hfe hse
      have hcslot : c.timeSlot = l2.timeSlot := hse.symm
      have hcmem : c ∈ st.bySlot l2.timeSlot := hcslot ▸ hmem c hcls
      have hcne : c ≠ l2 := by
        intro he
        subst he
        exact hnj (nodup_position_unique hnd hn hj)
      exact h2cl c hcmem hcne (by rw [← hfe, hf])
    · intro hfe hse
      have hcslot : c.timeSlot = l1.timeSlot := hse.symm
      have hcmem : c ∈ st.bySlot l1.timeSlot := hcslot ▸ hmem c hcls
      have hcne : c ≠ l1 := by
        intro he
        subst he
        exact hni (nodup_position_unique hnd hn hi)
      exact h1cl c hcmem hcne (by rw [← hfe, hf])
  by_cases hkj : k = j
  · rw [hkj, hvj] at hk
    injection hk with hk
    subst hk
    by_cases hmi : m = i
    · rw [hmi, hvi] at hm
      injection hm with hm
      subst hm
      intro _
      exact hslot
    · have hmj : m ≠ j := fun h => hkm (hkj.trans h.symm)
      rw [hvother m hmi hmj] at hm
      intro hfe
      exact (hside m b hmi hmj hm).2 hfe
  · by_cases hki : k = i
    · rw [hki, hvi] at hk
      injection hk with hk
      subst hk
      by_cases hmj : m = j
      · rw [hmj, hvj] at hm
        injection hm with hm
        subst hm
        intro _
        exact Ne.symm hslot
      · have hmi : m ≠ i := fun h => hkm (hki.trans h.symm)
        rw [hvother m hmi hmj] at hm
        intro hfe
        exact (hside m b hmi hmj hm).1 hfe
    · rw [hvother k hki hkj] at hk
      by_cases hmj : m = j
      · rw [hmj, hvj] at hm
        injection hm with hm
        subst hm
        intro hfe
        exact Ne.symm ((hside k a hki hkj hk).2 hfe.symm)
      · by_cases hmi : m = i
        · rw [hmi, hvi] at hm
          injection hm with hm
          subst hm
          intro hfe
          exact Ne.symm ((hside k a hki hkj hk).1 hfe.symm)
        · rw [hvother m hmi hmj] at hm
          exact hPg k m a b hkm hk hm

/-- Availability is preserved by a legal swap: `_can_swap` checks both
teachers' availability on the exchanged weekdays. -/
theorem swap_safety_avail (st : OptState) {i j : Nat} {l1 l2 : Lesson}
    (hi : st.lessons[i]? = some l1) (hj : st.lessons[j]? = some l2)
    (hav2 : l1.teacher.isAvailable l2.timeSlot.day = true)
    (hav1 : l2.teacher.isAvailable l1.timeSlot.day = true)
    (hA : teacherDaysOk st.lessons) :
    teacherDaysOk (swapLessons st i j).lessons := by
  rw [swapLessons_lessons st hi hj]
  intro x hx
  rcases List.mem_or_eq_of_mem_set hx with hx1 | hx1
  · rcases List.mem_or_eq_of_mem_set hx1 with hx2 | hx2
    · exact hA x hx2
    · subst hx2
      exact hav2
  · subst hx1
    exact hav1

theorem swapLessons_getElem (st : OptState) {i j : Nat} {l1 l2 : Lesson}
    (hi : st.lessons[i]? = some l1) (hj : st.lessons[j]? = some l2) (hij : i ≠ j) :
    (swapLessons st i j).lessons[i]? = some { l1 with timeSlot := l2.timeSlot }
      ∧ (swapLessons st i j).lessons[j]? = some { l2 with timeSlot := l1.timeSlot } := by
  have hilt := (List.getElem?_eq_some.mp hi).1
  have hjlt := (List.getElem?_eq_some.mp hj).1
  rw [swapLessons_lessons st hi hj]
  constructor
  · rw [List.getElem?_set_ne (Ne.symm hij), List.getElem?_set_self (by simpa using hilt)]
  · rw [List.getElem?_set_self (by simpa using hjlt)]

theorem isSwapCandidate_parts {bySlot : TimeSlot → List Lesson} {l1 l2 : Lesson}
    (h : isSwapCandidate bySlot l1 l2 = true) :
    l2 ≠ l1 ∧ canSwap bySlot l1 l2 = true := by
  simp only [isSwapCandidate, Bool.and_eq_true, decide_eq_true_eq] at h
  exact ⟨h.1.1, h.2⟩

/-- The Phase-3 loop invariant for the no-clash claims: index soundness plus
teacher/label clash freedom of the working schedule and the best snapshot. -/
def clashInv (st : OptState) : Prop :=
  MemInv st ∧ noTeacherClash st.lessons ∧ noLabelClash st.lessons
    ∧ noTeacherClash st.bestLessons ∧ noLabelClash st.bestLessons

/-- The Phase-3 loop invariant for the availability claim. -/
def availInv (st : OptState) : Prop :=
  teacherDaysOk st.lessons ∧ teacherDaysOk st.bestLessons

theorem optStep_availInv (μ : List Lesson → ℚ) (st : OptState) (ch : IterChoice)
    (h : availInv st) : availInv (optStep μ st ch) := by
  unfold optStep
  rcases hpick : ch.pick with _ | ⟨i, j⟩
  · simpa only [hpick] using h
  simp only [hpick]
  cases hi : st.lessons[i]? with
  | none => simpa only [hi] using h
  | some l1 =>
  cases hj : st.lessons[j]? with
  | none => simpa only [hi, hj] using h
  | some l2 =>
  simp only [hi, hj]
  obtain ⟨_, _, hc3, _, _, _, _⟩ := swapLessons_carry st i j
  split_ifs with hv hd hb
  all_goals try exact h
  all_goals {
    have hv2 := hv
    rw [Bool.and_eq_true] at hv2
    have hcand := hv2.2
    obtain ⟨hne, hcs⟩ := isSwapCandidate_parts hcand
    have hij : i ≠ j := by
      intro he
      subst he
      rw [hi] at hj
      injection hj with hj
      exact hne hj.symm
    obtain ⟨hslot, hav2, hav1, _⟩ := (canSwap_iff st.bySlot l1 l2).mp hcs
    have hA1 : teacherDaysOk (swapLessons st i j).lessons :=
      swap_safety_avail st hi hj hav2 hav1 h.1
    first
    | exact ⟨hA1, hA1⟩
    | exact ⟨hA1, hc3 ▸ h.2⟩
    | refine ⟨?_, ?_⟩
      · show teacherDaysOk (swapLessons (swapLessons st i j) i j).lessons
        rw [swap_swap_lessons st hi hj hij]
        exact h.1
      · obtain ⟨_, _, hd3, _, _, _, _⟩ := swapLessons_carry (swapLessons st i j) i j
        show teacherDaysOk (swapLessons (swapLessons st i j) i j).bestLessons
        rw [hd3, hc3]
        exact h.2
  }

theorem optStep_clashInv (μ : List Lesson → ℚ) (st : OptState) (ch : IterChoice)
    (h : clashInv st) : clashInv (optStep μ st ch) := by
  unfold optStep
  rcases hpick : ch.pick with _ | ⟨i, j⟩
  · simpa only [hpick] using h
  simp only [hpick]
  cases hi : st.lessons[i]? with
  | none => simpa only [hi] using h
  | some l1 =>
  cases hj : st.lessons[j]? with
  | none => simpa only [hi, hj] using h
  | some l2 =>
  simp only [hi, hj]
  obtain ⟨_, _, hc3, _, _, _, _⟩ := swapLessons_carry st i j
  split_ifs with hv hd hb
  all_goals try exact h
  all_goals {
    have hv2 := hv
    rw [Bool.and_eq_true] at hv2
    have hcand := hv2.2
    obtain ⟨hne, hcs⟩ := isSwapCandidate_parts hcand
    have hij : i ≠ j := by
      intro he
      subst he
      rw [hi] at hj
      injection hj with hj
      exact hne hj.symm
    obtain ⟨hslot, hav2, hav1, h2t, h1t, h2lab, h1lab, _⟩ :=
      (canSwap_iff st.bySlot l1 l2).mp hcs
    have hnd : st.lessons.Nodup := nodup_of_noTeacherClash h.2.1
    have hmem1 : MemInv (swapLessons st i j) :=
      swapLessons_memInv st hi hj hij hslot hnd h.1
    have hteacher1 : noTeacherClash (swapLessons st i j).lessons :=
      swap_safety_key (fun l => l.teacher.name) (fun l t => rfl) st hi hj hij
        h.1 h.2.1 hnd hslot h2t h1t
    have hlabel1 : noLabelClash (swapLessons st i j).lessons :=
      swap_safety_key (fun l => l.classOrGroup) (fun l t => rfl) st hi hj hij
        h.1 h.2.2.1 hnd hslot h2lab h1lab
    first
    | exact ⟨hmem1, hteacher1, hlabel1, hteacher1, hlabel1⟩
    | exact ⟨hmem1, hteacher1, hlabel1, hc3 ▸ h.2.2.2.1, hc3 ▸ h.2.2.2.2⟩
    | {
        obtain ⟨hi1, hj1⟩ := swapLessons_getElem st hi hj hij
        have hs1 : ({ l1 with timeSlot := l2.timeSlot } : Lesson).timeSlot
            ≠ ({ l2 with timeSlot := l1.timeSlot } : Lesson).timeSlot := Ne.symm hslot
        have hnd1 : (swapLessons st i j).lessons.Nodup :=
          nodup_of_noTeacherClash hteacher1
        have hmem2 : MemInv (swapLessons (swapLessons st i j) i j) :=
          swapLessons_memInv (swapLessons st i j) hi1 hj1 hij hs1 hnd1 hmem1
        obtain ⟨_, _, hd3, _, _, _, _⟩ := swapLessons_carry (swapLessons st i j) i j
        refine ⟨hmem2, ?_, ?_, ?_, ?_⟩
        · show noTeacherClash (swapLessons (swapLessons st i j) i j).lessons
          rw [swap_swap_lessons st hi hj hij]
          exact h.2.1
        · show noLabelClash (swapLessons (swapLessons st i j) i j).lessons
          rw [swap_swap_lessons st hi hj hij]
          exact h.2.2.1
        · show noTeacherClash (swapLessons (swapLessons st i j) i j).bestLessons
          rw [hd3, hc3]
          exact h.2.2.2.1
        · show noLabelClash (swapLessons (swapLessons st i j) i j).bestLessons
          rw [hd3, hc3]
          exact h.2.2.2.2
      }
  }

theorem optimizeLoop_pres {P : OptState → Prop} (μ : List Lesson → ℚ)
    (hP : ∀ st ch, P st → P (optStep μ st ch)) :
    ∀ (choices : List IterChoice) (st : OptState), P st →
      P (optimizeLoop μ choices st) := by
  intro choices
  induction choices with
  | nil => intro st h; exact h
  | cons ch rest ih =>
    intro st h
    simp only [optimizeLoop]
    split
    · exact hP st ch h
    · exact ih _ (hP st ch h)

/-! ## Claim C4: unavailable teachers are never scheduled -/

theorem placeSubjectHours_daysOk (egeSlots : List TimeSlot) (classrooms : List Classroom)
    (subj : Subject) :
    ∀ (n : Nat) (scored : List (ℚ × TimeSlot)) (daysUsed : List DayOfWeek)
      (st : Phase2State), teacherDaysOk st.schedule.lessons →
      teacherDaysOk (placeSubjectHours egeSlots classrooms subj n scored daysUsed st).schedule.lessons := by
  intro n
  induction n with
  | zero => intro scored daysUsed st h; exact h
  | succ n ih =>
    intro scored daysUsed st h
    rw [placeSubjectHours]
    cases hbest : findBestSlot egeSlots st.schedule subj scored daysUsed with
    | none => exact ih scored daysUsed _ h
    | some best =>
      refine ih _ _ _ ?_
      have ha1 := (isSlotAvailable_parts (findBestSlot_some_available hbest)).1
      intro l hl
      rw [Schedule.addLesson, List.mem_append] at hl
      rcases hl with hl | hl
      · exact h l hl
      · rw [List.mem_singleton] at hl
        subst hl
        exact ha1

theorem placeAllMandatorySubjects_daysOk (egeSlots : List TimeSlot)
    (classrooms : List Classroom) (subjects : List Subject) (st : Phase2State)
    (h : teacherDaysOk st.schedule.lessons) :
    teacherDaysOk (placeAllMandatorySubjects egeSlots classrooms subjects st).schedule.lessons := by
  rw [placeAllMandatorySubjects]
  revert st
  generalize groupByClass (sortByPriority (subjects.filter
    (fun s => decide (s.subjectType = SubjectType.mandatory)))) = todo
  induction todo with
  | nil => intro st h; exact h
  | cons subj rest ih =>
    intro st h
    rw [List.foldl_cons]
    refine ih _ ?_
    rw [placeSubject]
    exact placeSubjectHours_daysOk egeSlots classrooms subj subj.hoursPerWeek _ [] st h

/-- C4: in every phase's output, a teacher is never scheduled on a weekday
in their `unavailable_days` set — Phase 1 places lessons outright only on
available days, Phase 2 only into slots whose availability check includes
the teacher's day, and Phase 3 swaps only when both teachers remain
available on their new weekdays (the returned best snapshot included). -/
theorem c4_unavailable_teacher_never_scheduled :
    (∀ (classrooms : List Classroom) (groups : List EGEPracticeGroup)
        (egeSlots : List TimeSlot),
      teacherDaysOk (placeEgePractices classrooms groups egeSlots).lessons)
    ∧ (∀ (egeSlots : List TimeSlot) (classrooms : List Classroom)
        (subjects : List Subject) (st : Phase2State),
      teacherDaysOk st.schedule.lessons →
      teacherDaysOk (placeAllMandatorySubjects egeSlots classrooms subjects st).schedule.lessons)
    ∧ (∀ (μ : List Lesson → ℚ) (lessons0 : List Lesson) (choices : List IterChoice),
      teacherDaysOk lessons0 → teacherDaysOk (optimize μ lessons0 choices)) := by
  refine ⟨?_, ?_, ?_⟩
  · intro classrooms groups egeSlots
    exact (placeEgePractices_pres classrooms groups egeSlots).2
  · intro egeSlots classrooms subjects st h
    exact placeAllMandatorySubjects_daysOk egeSlots classrooms subjects st h
  · intro μ lessons0 choices h
    have h0 : availInv (initOptState μ lessons0) := ⟨h, h⟩
    have hfin := optimizeLoop_pres μ (optStep_availInv μ) choices (initOptState μ lessons0) h0
    exact hfin.2

/-- C4 witness: the three clauses instantiated on concrete inputs. -/
theorem c4_witness :
    teacherDaysOk (placeEgePractices [] [mathGroup] [⟨DayOfWeek.monday, 2⟩]).lessons
      ∧ teacherDaysOk (placeAllMandatorySubjects [] [] [] ⟨⟨[]⟩, 0, 0, []⟩).schedule.lessons
      ∧ teacherDaysOk (optimize (fun _ => 0) [] []) := by
  refine ⟨c4_unavailable_teacher_never_scheduled.1 [] [mathGroup] [⟨DayOfWeek.monday, 2⟩],
    c4_unavailable_teacher_never_scheduled.2.1 [] [] [] ⟨⟨[]⟩, 0, 0, []⟩ ?_,
    c4_unavailable_teacher_never_scheduled.2.2 (fun _ => 0) [] [] ?_⟩
  · intro l hl
    exact absurd hl (List.not_mem_nil l)
  · intro l hl
    exact absurd hl (List.not_mem_nil l)

/-- C1 (amended): Phase 1 guarantees only the classroom clause of the
invariant — it may double-book a teacher (see the counterexample) or a group
label, since it never checks them; Phase 2 preserves all three uniqueness
clauses (for subjects naming at least one cohort, whose label is then
covered by the availability check); Phase 3 preserves the (teacher, slot)
and (label, slot) clauses — its classroom check is incomplete (claim C5),
so the classroom clause is not preserved there. -/
theorem c1_amended :
    (∀ (classrooms : List Classroom) (groups : List EGEPracticeGroup)
        (egeSlots : List TimeSlot),
      noRoomClash (placeEgePractices classrooms groups egeSlots).lessons)
    ∧ (∀ (egeSlots : List TimeSlot) (classrooms : List Classroom)
        (subjects : List Subject) (st : Phase2State),
      (∀ subj ∈ subjects, subj.classes ≠ []) → phase2Inv st.schedule →
      phase2Inv (placeAllMandatorySubjects egeSlots classrooms subjects st).schedule)
    ∧ (∀ (μ : List Lesson → ℚ) (lessons0 : List Lesson) (choices : List IterChoice),
      noTeacherClash lessons0 → noLabelClash lessons0 →
      noTeacherClash (optimize μ lessons0 choices)
        ∧ noLabelClash (optimize μ lessons0 choices)) := by
  refine ⟨?_, ?_, ?_⟩
  · intro classrooms groups egeSlots
    exact (placeEgePractices_pres classrooms groups egeSlots).1
  · intro egeSlots classrooms subjects st hcl h
    exact placeAllMandatorySubjects_pres egeSlots classrooms subjects st hcl h
  · intro μ lessons0 choices ht hl
    have hmem0 : MemInv (initOptState μ lessons0) := by
      intro l hml
      rw [initOptState]
      simp only [buildBySlot]
      rw [List.mem_filter]
      exact ⟨hml, by simp⟩
    have h0 : clashInv (initOptState μ lessons0) := ⟨hmem0, ht, hl, ht, hl⟩
    have hfin := optimizeLoop_pres μ (optStep_clashInv μ) choices (initOptState μ lessons0) h0
    exact ⟨hfin.2.2.2.1, hfin.2.2.2.2⟩

/-- C1 witness: the amended invariant instantiated on concrete inputs. -/
theorem c1_amended_witness :
    noRoomClash (placeEgePractices [roomTwenty] [bigGroup] [⟨DayOfWeek.monday, 3⟩]).lessons
      ∧ (noTeacherClash (optimize (fun _ => 0) [lessonSwapA] [])
          ∧ noLabelClash (optimize (fun _ => 0) [lessonSwapA] [])) := by
  refine ⟨c1_amended.1 [roomTwenty] [bigGroup] [⟨DayOfWeek.monday, 3⟩],
    c1_amended.2.2 (fun _ => 0) [lessonSwapA] [] ?_ ?_⟩
  · unfold noTeacherClash
    decide
  · unfold noLabelClash
    decide

/-! ## Claim C3: Phase-2 failure recording

Helper lemmas about the cache-key extraction (`eraseDups` mirrors the
dictionary's key set) and the score arithmetic. -/

theorem eraseDups_loop_spec {α : Type} [DecidableEq α] :
    ∀ (as bs : List α), bs.Nodup →
      (List.eraseDups.loop as bs).Nodup
        ∧ ∀ x, x ∈ List.eraseDups.loop as bs ↔ x ∈ as ∨ x ∈ bs := by
  intro as
  induction as with
  | nil =>
    intro bs hnd
    simp only [List.eraseDups.loop]
    refine ⟨List.nodup_reverse.mpr hnd, ?_⟩
    intro x
    simp
  | cons a as ih =>
    intro bs hnd
    rw [List.eraseDups.loop]
    cases helem : bs.elem a with
    | true =>
      have hmem : a ∈ bs := by
        rw [← List.elem_iff]
        exact helem
      obtain ⟨h1, h2⟩ := ih bs hnd
      refine ⟨h1, ?_⟩
      intro x
      rw [h2 x]
      constructor
      · rintro (h | h)
        · exact Or.inl (List.mem_cons_of_mem _ h)
        · exact Or.inr h
      · rintro (h | h)
        · rcases List.mem_cons.mp h with rfl | h
          · exact Or.inr hmem
          · exact Or.inl h
        · exact Or.inr h
    | false =>
      have hmem : a ∉ bs := by
        intro hm
        rw [← List.elem_iff] at hm
        rw [helem] at hm
        exact Bool.noConfusion hm
      obtain ⟨h1, h2⟩ := ih (a :: bs) (List.nodup_cons.mpr ⟨hmem, hnd⟩)
      refine ⟨h1, ?_⟩
      intro x
      rw [h2 x]
      constructor
      · rintro (h | h)
        · exact Or.inl (List.mem_cons_of_mem _ h)
        · rcases List.mem_cons.mp h with rfl | h
          · exact Or.inl (List.mem_cons_self _ _)
          · exact Or.inr h
      · rintro (h | h)
        · rcases List.mem_cons.mp h with rfl | h
          · exact Or.inr (List.mem_cons_self _ _)
          · exact Or.inl h
        · exact Or.inr (List.mem_cons_of_mem _ h)

theorem eraseDups_nodup {α : Type} [DecidableEq α] (l : List α) : l.eraseDups.Nodup := by
  rw [List.eraseDups]
  exact (eraseDups_loop_spec l [] List.nodup_nil).1

theorem mem_eraseDups {α : Type} [DecidableEq α] {l : List α} {x : α} :
    x ∈ l.eraseDups ↔ x ∈ l := by
  rw [List.eraseDups]
  rw [(eraseDups_loop_spec l [] List.nodup_nil).2 x]
  simp

theorem mem_teacherSlots {s : Schedule} {name : String} {ts : TimeSlot} :
    ts ∈ teacherSlots s name
      ↔ ∃ l ∈ s.lessons, l.teacher.name = name ∧ l.timeSlot = ts := by
  rw [teacherSlots, mem_eraseDups, List.mem_map]
  constructor
  · rintro ⟨l, hl, rfl⟩
    rw [List.mem_filter, decide_eq_true_eq] at hl
    exact ⟨l, hl.1, hl.2, rfl⟩
  · rintro ⟨l, hl, hname, rfl⟩
    exact ⟨l, List.mem_filter.mpr ⟨hl, by simp [hname]⟩, rfl⟩

theorem mem_classSlots {s : Schedule} {cn : String} {ts : TimeSlot} :
    ts ∈ classSlots s cn
      ↔ ∃ l ∈ s.lessons, l.classOrGroup = cn ∧ l.timeSlot = ts := by
  rw [classSlots, mem_eraseDups, List.mem_map]
  constructor
  · rintro ⟨l, hl, rfl⟩
    rw [List.mem_filter, decide_eq_true_eq] at hl
    exact ⟨l, hl.1, hl.2, rfl⟩
  · rintro ⟨l, hl, hname, rfl⟩
    exact ⟨l, List.mem_filter.mpr ⟨hl, by simp [hname]⟩, rfl⟩

theorem teacherSlots_nodup (s : Schedule) (name : String) :
    (teacherSlots s name).Nodup :=
  eraseDups_nodup _

theorem classSlots_nodup (s : Schedule) (cn : String) :
    (classSlots s cn).Nodup :=
  eraseDups_nodup _

theorem gapSum_cons_bound :
    ∀ (xs : List Nat) (x : Nat), List.Sorted (· < ·) (x :: xs) →
      (∀ y ∈ x :: xs, y ≤ 7) → gapSum (x :: xs) + (x :: xs).length ≤ 8 - x := by
  intro xs
  induction xs with
  | nil =>
    intro x _ hle
    have := hle x (List.mem_singleton.mpr rfl)
    simp [gapSum]
    omega
  | cons y ys ih =>
    intro x hsorted hle
    have hxy : x < y := (List.sorted_cons.mp hsorted).1 y (List.mem_cons_self _ _)
    have hs2 : List.Sorted (· < ·) (y :: ys) := (List.sorted_cons.mp hsorted).2
    have hle2 : ∀ z ∈ y :: ys, z ≤ 7 := fun z hz => hle z (List.mem_cons_of_mem _ hz)
    have hrec := ih y hs2 hle2
    have hy7 : y ≤ 7 := hle2 y (List.mem_cons_self _ _)
    rw [gapSum]
    simp only [List.length_cons] at hrec ⊢
    omega

theorem sorted_strict_of_le_nodup {xs : List Nat}
    (hs : List.Sorted (· ≤ ·) xs) (hnd : xs.Nodup) : List.Sorted (· < ·) xs :=
  List.Sorted.lt_of_le hs hnd

/-- The teacher-gap penalty of an available slot in the grid is at most 25:
the merged, deduplicated period list lies in [1,7], so its total gap sum is
at most 5. -/
theorem gapSum_merged_le_five {nums : List Nat} (hnd : nums.Nodup)
    (hbound : ∀ y ∈ nums, 1 ≤ y ∧ y ≤ 7) :
    gapSum (List.insertionSort (· ≤ ·) nums) ≤ 5 := by
  have hperm := List.perm_insertionSort (· ≤ ·) nums
  have hsorted : List.Sorted (· ≤ ·) (List.insertionSort (· ≤ ·) nums) :=
    List.sorted_insertionSort (· ≤ ·) nums
  have hnd2 : (List.insertionSort (· ≤ ·) nums).Nodup := hperm.nodup_iff.mpr hnd
  have hstrict := sorted_strict_of_le_nodup hsorted hnd2
  have hbound2 : ∀ y ∈ List.insertionSort (· ≤ ·) nums, 1 ≤ y ∧ y ≤ 7 :=
    fun y hy => hbound y (hperm.mem_iff.mp hy)
  cases hve : List.insertionSort (· ≤ ·) nums with
  | nil =>
    simp [gapSum]
  | cons x rest =>
    rw [hve] at hstrict hbound2
    have hx1 : 1 ≤ x := (hbound2 x (List.mem_cons_self _ _)).1
    cases rest with
    | nil => simp [gapSum]
    | cons y ys =>
      have hb := gapSum_cons_bound (y :: ys) x hstrict (fun z hz => (hbound2 z hz).2)
      simp only [List.length_cons] at hb
      omega

theorem dayLoadCount_le_six {s : Schedule} {cn : String} (slot : TimeSlot)
    (hwf : ∀ l ∈ s.lessons, 1 ≤ l.timeSlot.lessonNumber ∧ l.timeSlot.lessonNumber ≤ 7)
    (hfree : classBusyLabel s cn slot = false)
    (hsl : 1 ≤ slot.lessonNumber ∧ slot.lessonNumber ≤ 7) :
    dayLoadCount s cn slot.day ≤ 6 := by
  rw [dayLoadCount]
  set L := (classSlots s cn).filter (fun ts => decide (ts.day = slot.day)) with hL
  have hLnd : L.Nodup := (classSlots_nodup s cn).filter _
  have hprop : ∀ ts ∈ L, ts.day = slot.day
      ∧ 1 ≤ ts.lessonNumber ∧ ts.lessonNumber ≤ 7 ∧ ts ≠ slot := by
    intro ts hts
    rw [hL, List.mem_filter, decide_eq_true_eq] at hts
    obtain ⟨hcs, hday⟩ := hts
    rw [mem_classSlots] at hcs
    obtain ⟨l, hl, hlab, hslot⟩ := hcs
    refine ⟨hday, (hslot ▸ hwf l hl).1, (hslot ▸ hwf l hl).2, ?_⟩
    intro he
    rw [classBusyLabel, List.any_eq_false] at hfree
    have := hfree l hl
    simp [hlab, hslot, he] at this
  have hmapnd : (L.map (fun ts => ts.lessonNumber)).Nodup := by
    refine List.Nodup.map_on ?_ hLnd
    intro x hx y hy hxy
    have hxp := hprop x hx
    have hyp := hprop y hy
    cases x
    cases y
    simp only at hxy
    simp only [TimeSlot.mk.injEq]
    exact ⟨hxp.1.trans hyp.1.symm, hxy⟩
  have hsub : (L.map (fun ts => ts.lessonNumber)).toFinset
      ⊆ (Finset.Icc 1 7).erase slot.lessonNumber := by
    intro n hn
    rw [List.mem_toFinset, List.mem_map] at hn
    obtain ⟨ts, hts, rfl⟩ := hn
    obtain ⟨hday, h1, h7, hne⟩ := hprop ts hts
    rw [Finset.mem_erase, Finset.mem_Icc]
    refine ⟨?_, h1, h7⟩
    intro he
    apply hne
    cases ts
    cases slot
    simp only at hday he
    simp [hday, he]
  have hlen : L.length = (L.map (fun ts => ts.lessonNumber)).toFinset.card := by
    rw [List.toFinset_card_of_nodup hmapnd, List.length_map]
  have hcard : ((Finset.Icc 1 7).erase slot.lessonNumber).card = 6 := by
    rw [Finset.card_erase_of_mem (Finset.mem_Icc.mpr hsl), Nat.card_Icc]
  rw [hlen]
  calc (L.map (fun ts => ts.lessonNumber)).toFinset.card
      ≤ ((Finset.Icc 1 7).erase slot.lessonNumber).card := Finset.card_le_card hsub
    _ = 6 := hcard

/-- Grid well-formedness: every lesson of the schedule sits in periods 1–7
(true of everything the three phases produce, since they only use the 5×7
grid). -/
def gridWf (s : Schedule) : Prop :=
  ∀ l ∈ s.lessons, 1 ≤ l.timeSlot.lessonNumber ∧ l.timeSlot.lessonNumber ≤ 7

theorem mem_allSlots {slot : TimeSlot} :
    slot ∈ allSlots ↔ 1 ≤ slot.lessonNumber ∧ slot.lessonNumber ≤ 7 := by
  rw [allSlots]
  rw [List.mem_flatMap]
  constructor
  · rintro ⟨d, _, hm⟩
    rw [List.mem_map] at hm
    obtain ⟨i, hi, he⟩ := hm
    rw [List.mem_range] at hi
    have h2 : i + 1 = slot.lessonNumber := congrArg TimeSlot.lessonNumber he
    omega
  · rintro ⟨h1, h7⟩
    refine ⟨slot.day, ?_, ?_⟩
    · cases hd : slot.day <;> simp [DayOfWeek.all]
    · rw [List.mem_map]
      refine ⟨slot.lessonNumber - 1, ?_, ?_⟩
      · rw [List.mem_range]
        omega
      · cases slot with
        | mk d n =>
          simp only [TimeSlot.mk.injEq]
          simp only at h1 h7
          exact ⟨trivial, by omega⟩

theorem bandTermC7_ge (isHard : Bool) (p : Nat) : -25 ≤ bandTermC7 isHard p := by
  rw [bandTermC7]
  cases isHard <;> split_ifs <;> norm_num

theorem edgeTermC7_ge (p : Nat) : -20 ≤ edgeTermC7 p := by
  rw [edgeTermC7]
  split_ifs with ha hb
  · exfalso
    omega
  · norm_num
  · norm_num
  · norm_num

theorem newDayTermC7_nonneg (s : Schedule) (subj : Subject) (slot : TimeSlot) :
    0 ≤ newDayTermC7 s subj slot := by
  rw [newDayTermC7]
  split_ifs <;> norm_num

theorem cohortTermC7_ge {s : Schedule} {subj : Subject} {slot : TimeSlot}
    (hwf : gridWf s) (hgrid : 1 ≤ slot.lessonNumber ∧ slot.lessonNumber ≤ 7)
    (hcls : ∀ cn ∈ subj.classes, classBusyLabel s cn slot = false) :
    -18 ≤ cohortLoadTermC7 s subj slot := by
  rw [cohortLoadTermC7]
  cases hcn : subj.classes.head? with
  | none =>
    simp only [hcn]
    norm_num
  | some cn =>
    simp only [hcn]
    have hmem : cn ∈ subj.classes := by
      cases hc : subj.classes with
      | nil => rw [hc] at hcn; exact absurd hcn (by simp)
      | cons c0 rest =>
        rw [hc] at hcn
        injection hcn with hcn
        rw [hcn]
        exact List.mem_cons_self _ _
    have hl := dayLoadCount_le_six slot hwf (hcls cn hmem) hgrid
    have hq : (dayLoadCount s cn slot.day : ℚ) ≤ 6 := by exact_mod_cast hl
    linarith

theorem gapTermC7_ge {s : Schedule} {subj : Subject} {slot : TimeSlot}
    (hwf : gridWf s) (hgrid : 1 ≤ slot.lessonNumber ∧ slot.lessonNumber ≤ 7)
    (hfree : teacherBusyName s subj.teacher.name slot = false) :
    -25 ≤ gapTermC7 s subj slot := by
  rw [gapTermC7]
  split_ifs with hemp
  · norm_num
  · have htprop : ∀ ts ∈ (teacherSlots s subj.teacher.name).filter
        (fun ts => decide (ts.day = slot.day)),
        ts.day = slot.day ∧ 1 ≤ ts.lessonNumber ∧ ts.lessonNumber ≤ 7 ∧ ts ≠ slot := by
      intro ts hts
      rw [List.mem_filter, decide_eq_true_eq] at hts
      obtain ⟨hcs, hday⟩ := hts
      rw [mem_teacherSlots] at hcs
      obtain ⟨l, hl, hname, hslot⟩ := hcs
      refine ⟨hday, (hslot ▸ hwf l hl).1, (hslot ▸ hwf l hl).2, ?_⟩
      intro he
      rw [teacherBusyName, List.any_eq_false] at hfree
      have := hfree l hl
      simp [hname, hslot, he] at this
    have hnd : (((teacherSlots s subj.teacher.name).filter
        (fun ts => decide (ts.day = slot.day))).map (fun ts => ts.lessonNumber)
          ++ [slot.lessonNumber]).Nodup := by
      rw [List.nodup_append]
      refine ⟨?_, List.nodup_singleton _, ?_⟩
      · refine List.Nodup.map_on ?_ ((teacherSlots_nodup s subj.teacher.name).filter _)
        intro x hx y hy hxy
        have hxp := htprop x hx
        have hyp := htprop y hy
        cases x
        cases y
        simp only at hxy
        simp only [TimeSlot.mk.injEq]
        exact ⟨hxp.1.trans hyp.1.symm, hxy⟩
      · intro n hn hn2
        rw [List.mem_singleton] at hn2
        subst hn2
        rw [List.mem_map] at hn
        obtain ⟨ts, hts, hnum⟩ := hn
        obtain ⟨hday, _, _, hne⟩ := htprop ts hts
        apply hne
        cases ts
        cases slot
        simp only at hday hnum
        simp [hday, hnum]
    have hbound : ∀ y ∈ ((teacherSlots s subj.teacher.name).filter
        (fun ts => decide (ts.day = slot.day))).map (fun ts => ts.lessonNumber)
          ++ [slot.lessonNumber], 1 ≤ y ∧ y ≤ 7 := by
      intro y hy
      rw [List.mem_append] at hy
      rcases hy with hy | hy
      · rw [List.mem_map] at hy
        obtain ⟨ts, hts, rfl⟩ := hy
        exact ⟨(htprop ts hts).2.1, (htprop ts hts).2.2.1⟩
      · rw [List.mem_singleton] at hy
        subst hy
        exact hgrid
    have hg := gapSum_merged_le_five hnd hbound
    have hq : (gapSum (List.insertionSort (· ≤ ·)
        (((teacherSlots s subj.teacher.name).filter
          (fun ts => decide (ts.day = slot.day))).map (fun ts => ts.lessonNumber)
            ++ [slot.lessonNumber])) : ℚ) ≤ 5 := by
      exact_mod_cast hg
    linarith

/-- Every slot that passes the Phase-2 availability check scores strictly
positively (at least 12), so `_evaluate_all_slots` never drops a legal slot. -/
theorem evaluateSlot_pos (egeSlots : List TimeSlot) (s : Schedule) (subj : Subject)
    (isHard : Bool) (slot : TimeSlot) (hwf : gridWf s) (hgrid : slot ∈ allSlots)
    (havail : isSlotAvailable egeSlots s subj slot = true) :
    0 < evaluateSlot egeSlots s subj isHard slot := by
  obtain ⟨ha1, ha2, ha3, ha4⟩ := isSlotAvailable_parts havail
  have hb := mem_allSlots.mp hgrid
  rw [evaluateSlot_formula egeSlots s subj isHard slot havail]
  have h1 := bandTermC7_ge isHard slot.lessonNumber
  have h2 := edgeTermC7_ge slot.lessonNumber
  have h3 := cohortTermC7_ge hwf hb ha3
  have h4 := gapTermC7_ge hwf hb ha2
  have h5 := newDayTermC7_nonneg s subj slot
  linarith

/-- The invariant `_place_subject` maintains between hours: the scored list
still contains every currently-legal slot, and only grid slots. -/
def scoredInv (egeSlots : List TimeSlot) (s : Schedule) (subj : Subject)
    (scored : List (ℚ × TimeSlot)) : Prop :=
  (∀ slot ∈ allSlots, isSlotAvailable egeSlots s subj slot = true →
    slot ∈ scored.map (fun p => p.2))
    ∧ ∀ p ∈ scored, p.2 ∈ allSlots

theorem isSlotAvailable_iff {egeSlots : List TimeSlot} {s : Schedule} {subj : Subject}
    {slot : TimeSlot} :
    isSlotAvailable egeSlots s subj slot = true ↔
      (subj.teacher.isAvailable slot.day = true
        ∧ teacherBusyName s subj.teacher.name slot = false
        ∧ (∀ cn ∈ subj.classes, classBusyLabel s cn slot = false)
        ∧ egeSlots.contains slot = false) := by
  constructor
  · exact isSlotAvailable_parts
  · rintro ⟨h1, h2, h3, h4⟩
    rw [isSlotAvailable, Bool.and_eq_true, Bool.and_eq_true, Bool.and_eq_true]
    refine ⟨⟨⟨h1, by rw [h2]; rfl⟩, ?_⟩, by rw [h4]; rfl⟩
    rw [List.all_eq_true]
    intro cn hcn
    rw [h3 cn hcn]; rfl

theorem isSlotAvailable_addLesson {egeSlots : List TimeSlot} {s : Schedule}
    {subj : Subject} {lesson : Lesson} {slot : TimeSlot}
    (h : isSlotAvailable egeSlots (s.addLesson lesson) subj slot = true) :
    isSlotAvailable egeSlots s subj slot = true := by
  obtain ⟨h1, h2, h3, h4⟩ := isSlotAvailable_parts h
  rw [isSlotAvailable_iff]
  refine ⟨h1, ?_, ?_, h4⟩
  · rw [teacherBusyName, List.any_eq_false]
    rw [teacherBusyName, List.any_eq_false] at h2
    intro l hl
    exact h2 l (by rw [Schedule.addLesson]; exact List.mem_append_left _ hl)
  · intro cn hcn
    have := h3 cn hcn
    rw [classBusyLabel, List.any_eq_false] at this ⊢
    intro l hl
    exact this l (by rw [Schedule.addLesson]; exact List.mem_append_left _ hl)

theorem isSlotAvailable_placed_false {egeSlots : List TimeSlot} {s : Schedule}
    {subj : Subject} {lesson : Lesson} {best : TimeSlot}
    (hname : lesson.teacher.name = subj.teacher.name) (hslot : lesson.timeSlot = best) :
    isSlotAvailable egeSlots (s.addLesson lesson) subj best = false := by
  rw [Bool.eq_false_iff]
  intro hcontra
  have h2 := (isSlotAvailable_parts hcontra).2.1
  rw [teacherBusyName, List.any_eq_false] at h2
  have := h2 lesson (by
    rw [Schedule.addLesson]
    exact List.mem_append_right _ (List.mem_singleton.mpr rfl))
  simp [hname, hslot] at this

/-- `_evaluate_all_slots` keeps every available slot: its score is positive. -/
theorem evaluateAllSlots_scoredInv (egeSlots : List TimeSlot) (s : Schedule)
    (subj : Subject) (isHard : Bool) (hwf : gridWf s) :
    scoredInv egeSlots s subj (evaluateAllSlots egeSlots s subj isHard) := by
  constructor
  · intro slot hgrid havail
    rw [List.mem_map]
    refine ⟨(evaluateSlot egeSlots s subj isHard slot, slot), ?_, rfl⟩
    rw [evaluateAllSlots]
    rw [(List.perm_insertionSort _ _).mem_iff]
    rw [List.mem_filter]
    refine ⟨?_, ?_⟩
    · rw [List.mem_map]
      exact ⟨slot, hgrid, rfl⟩
    · rw [decide_eq_true_eq]
      exact evaluateSlot_pos egeSlots s subj isHard slot hwf hgrid havail
  · intro p hp
    rw [evaluateAllSlots, (List.perm_insertionSort _ _).mem_iff, List.mem_filter] at hp
    obtain ⟨hp1, _⟩ := hp
    rw [List.mem_map] at hp1
    obtain ⟨slot, hslot, rfl⟩ := hp1
    exact hslot

/-- Under the invariant, `_find_best_slot` comes back empty exactly when no
slot of the grid passes the availability check. -/
theorem findBestSlot_none_iff {egeSlots : List TimeSlot} {s : Schedule} {subj : Subject}
    {scored : List (ℚ × TimeSlot)} {daysUsed : List DayOfWeek}
    (hinv : scoredInv egeSlots s subj scored) :
    findBestSlot egeSlots s subj scored daysUsed = none ↔
      ∀ slot ∈ allSlots, isSlotAvailable egeSlots s subj slot = false := by
  constructor
  · intro h slot hgrid
    rw [Bool.eq_false_iff]
    intro havail
    have hm := hinv.1 slot hgrid havail
    rw [List.mem_map] at hm
    obtain ⟨p, hp, hp2⟩ := hm
    rw [findBestSlot] at h
    cases hf : scored.find? (fun p =>
        !(daysUsed.contains p.2.day) && isSlotAvailable egeSlots s subj p.2) with
    | some q => simp only [hf] at h; exact Option.noConfusion h
    | none =>
      simp only [hf] at h
      cases hg : scored.find? (fun p => isSlotAvailable egeSlots s subj p.2) with
      | some q => simp only [hg, Option.map_some'] at h; exact Option.noConfusion h
      | none =>
        rw [List.find?_eq_none] at hg
        have := hg p hp
        rw [hp2] at this
        simp [havail] at this
  · intro h
    rw [findBestSlot]
    have hall : ∀ p ∈ scored, isSlotAvailable egeSlots s subj p.2 = false :=
      fun p hp => h p.2 (hinv.2 p hp)
    have hf1 : scored.find? (fun p =>
        !(daysUsed.contains p.2.day) && isSlotAvailable egeSlots s subj p.2) = none := by
      rw [List.find?_eq_none]
      intro p hp
      simp [hall p hp]
    have hf2 : scored.find? (fun p => isSlotAvailable egeSlots s subj p.2) = none := by
      rw [List.find?_eq_none]
      intro p hp
      simp [hall p hp]
    simp only [hf1, hf2, Option.map_none']

/-- The invariant survives one placement: the placed slot is the only one
removed from the scored list, and it is no longer available. -/
theorem scoredInv_step {egeSlots : List TimeSlot} {s : Schedule} {subj : Subject}
    {scored : List (ℚ × TimeSlot)} (lesson : Lesson) (best : TimeSlot)
    (hinv : scoredInv egeSlots s subj scored)
    (hname : lesson.teacher.name = subj.teacher.name) (hslot : lesson.timeSlot = best) :
    scoredInv egeSlots (s.addLesson lesson) subj
      (scored.filter (fun p => decide (p.2 ≠ best))) := by
  constructor
  · intro slot hgrid havail
    have havail0 : isSlotAvailable egeSlots s subj slot = true :=
      isSlotAvailable_addLesson havail
    have hne : slot ≠ best := by
      intro he
      subst he
      rw [isSlotAvailable_placed_false hname hslot] at havail
      exact Bool.noConfusion havail
    have hm := hinv.1 slot hgrid havail0
    rw [List.mem_map] at hm
    obtain ⟨p, hp, hp2⟩ := hm
    rw [List.mem_map]
    refine ⟨p, ?_, hp2⟩
    rw [List.mem_filter]
    exact ⟨hp, by simp [hp2, hne]⟩
  · intro p hp
    rw [List.mem_filter] at hp
    exact hinv.2 p hp.1

/-- One hour of the `_place_subject` loop, case-split on whether a slot is
still available: no available slot records a failure; a found best slot
places the lesson and advances the bookkeeping. -/
theorem placeSubjectHours_hour (egeSlots : List TimeSlot) (classrooms : List Classroom)
    (subj : Subject) (n : Nat) (scored : List (ℚ × TimeSlot)) (daysUsed : List DayOfWeek)
    (st : Phase2State) (hinv : scoredInv egeSlots st.schedule subj scored) :
    ((∀ slot ∈ allSlots, isSlotAvailable egeSlots st.schedule subj slot = false) →
      placeSubjectHours egeSlots classrooms subj (n + 1) scored daysUsed st
        = placeSubjectHours egeSlots classrooms subj n scored daysUsed
            { st with failed := st.failed + 1, conflicts := st.conflicts ++ [subj.name] })
    ∧ ∀ best, findBestSlot egeSlots st.schedule subj scored daysUsed = some best →
      placeSubjectHours egeSlots classrooms subj (n + 1) scored daysUsed st
        = placeSubjectHours egeSlots classrooms subj n
            (scored.filter (fun p => decide (p.2 ≠ best)))
            (daysUsed ++ [best.day])
            { st with
              schedule := st.schedule.addLesson
                { subject := subj.name
                  teacher := subj.teacher
                  classOrGroup := classNameOf subj
                  classroom := findClassroom classrooms st.schedule subj best
                  timeSlot := best
                  isEgePractice := false },
              placed := st.placed + 1 } := by
  constructor
  · intro hnone
    have hf : findBestSlot egeSlots st.schedule subj scored daysUsed = none :=
      (findBestSlot_none_iff hinv).mpr hnone
    rw [placeSubjectHours]
    simp only [hf]
  · intro best hbest
    rw [placeSubjectHours]
    simp only [hbest]

/-- The subject used to falsify C3's legality condition. -/
def c3Subj : Subject :=
  { name := "Труд", subjectType := SubjectType.mandatory, hoursPerWeek := 1,
    teacher := { name := "Т3" }, classes := ["11А"] }

/-- Modelled from the claim's own words, not from the code: C3 calls a slot
"legal" when the teacher is available that day, the teacher is free, every
cohort is free, a classroom is free, and the slot is not EGE-reserved. -/
def specLegalC3 (egeSlots : List TimeSlot) (classrooms : List Classroom)
    (s : Schedule) (subj : Subject) (slot : TimeSlot) : Bool :=
  subj.teacher.isAvailable slot.day
    && !(teacherBusyName s subj.teacher.name slot)
    && subj.classes.all (fun cn => !(classBusyLabel s cn slot))
    && classrooms.any (fun c => !(classroomBusyNumber s c.number slot))
    && !(egeSlots.contains slot)

theorem c3_empty_gridWf : gridWf (⟨[]⟩ : Schedule) := by
  intro l hl
  exact absurd hl (List.not_mem_nil l)

/-- C3 counterexample: with no classrooms at all, no slot is "legal" in the
claim's sense (a classroom must be free), yet `_place_subject` happily places
the hour — its availability check never looks at classrooms — so the hour is
not recorded as failed even though no legal slot exists. -/
theorem c3_counterexample :
    (placeSubject [] [] c3Subj ⟨⟨[]⟩, 0, 0, []⟩).failed = 0
      ∧ (placeSubject [] [] c3Subj ⟨⟨[]⟩, 0, 0, []⟩).placed = 1
      ∧ allSlots.all
          (fun sl => !(specLegalC3 [] [] ⟨[]⟩ c3Subj sl)) = true := by
  have hinv := evaluateAllSlots_scoredInv [] ⟨[]⟩ c3Subj (isHardSubject c3Subj)
    c3_empty_gridWf
  have hsome : findBestSlot [] (⟨[]⟩ : Schedule) c3Subj
      (evaluateAllSlots [] ⟨[]⟩ c3Subj (isHardSubject c3Subj)) [] ≠ none := by
    intro hn
    have := (findBestSlot_none_iff hinv).mp hn ⟨DayOfWeek.monday, 3⟩ (by decide)
    rw [show isSlotAvailable [] (⟨[]⟩ : Schedule) c3Subj ⟨DayOfWeek.monday, 3⟩
        = true by decide] at this
    exact Bool.noConfusion this
  obtain ⟨best, hbest⟩ : ∃ best, findBestSlot [] (⟨[]⟩ : Schedule) c3Subj
      (evaluateAllSlots [] ⟨[]⟩ c3Subj (isHardSubject c3Subj)) [] = some best := by
    cases hb : findBestSlot [] (⟨[]⟩ : Schedule) c3Subj
        (evaluateAllSlots [] ⟨[]⟩ c3Subj (isHardSubject c3Subj)) [] with
    | none => exact absurd hb hsome
    | some b => exact ⟨b, rfl⟩
  have hstep := (placeSubjectHours_hour [] [] c3Subj 0
    (evaluateAllSlots [] ⟨[]⟩ c3Subj (isHardSubject c3Subj)) []
    ⟨⟨[]⟩, 0, 0, []⟩ hinv).2 best hbest
  have hrun : placeSubject [] [] c3Subj ⟨⟨[]⟩, 0, 0, []⟩
      = placeSubjectHours [] [] c3Subj 1
          (evaluateAllSlots [] ⟨[]⟩ c3Subj (isHardSubject c3Subj)) []
          ⟨⟨[]⟩, 0, 0, []⟩ := rfl
  rw [hrun, hstep]
  exact ⟨rfl, rfl, by decide⟩

/-- C3, amended to the code's actual legality (no classroom condition): under
the scored-list invariant the per-hour loop fails exactly when no slot passes
`_is_slot_available` — teacher available that day, teacher free, cohorts free,
not EGE-reserved, with no classroom requirement — and places a lesson at the
best slot whenever one is available; `_evaluate_all_slots` establishes the
invariant and one placement step preserves it. -/
theorem c3_amended :
    (∀ (egeSlots : List TimeSlot) (s : Schedule) (subj : Subject)
        (scored : List (ℚ × TimeSlot)) (daysUsed : List DayOfWeek),
      scoredInv egeSlots s subj scored →
      (findBestSlot egeSlots s subj scored daysUsed = none ↔
        ∀ slot ∈ allSlots, isSlotAvailable egeSlots s subj slot = false))
    ∧ (∀ (egeSlots : List TimeSlot) (s : Schedule) (subj : Subject) (isHard : Bool),
      gridWf s → scoredInv egeSlots s subj (evaluateAllSlots egeSlots s subj isHard))
    ∧ (∀ (egeSlots : List TimeSlot) (s : Schedule) (subj : Subject)
        (scored : List (ℚ × TimeSlot)) (lesson : Lesson) (best : TimeSlot),
      scoredInv egeSlots s subj scored →
      lesson.teacher.name = subj.teacher.name → lesson.timeSlot = best →
      scoredInv egeSlots (s.addLesson lesson) subj
        (scored.filter (fun p => decide (p.2 ≠ best))))
    ∧ ∀ (egeSlots : List TimeSlot) (classrooms : List Classroom) (subj : Subject)
        (n : Nat) (scored : List (ℚ × TimeSlot)) (daysUsed : List DayOfWeek)
        (st : Phase2State), scoredInv egeSlots st.schedule subj scored →
      ((∀ slot ∈ allSlots, isSlotAvailable egeSlots st.schedule subj slot = false) →
        placeSubjectHours egeSlots classrooms subj (n + 1) scored daysUsed st
          = placeSubjectHours egeSlots classrooms subj n scored daysUsed
              { st with
                failed := st.failed + 1
                conflicts := st.conflicts ++ [subj.name] })
      ∧ ∀ best, findBestSlot egeSlots st.schedule subj scored daysUsed = some best →
        placeSubjectHours egeSlots classrooms subj (n + 1) scored daysUsed st
          = placeSubjectHours egeSlots classrooms subj n
              (scored.filter (fun p => decide (p.2 ≠ best)))
              (daysUsed ++ [best.day])
              { st with
                schedule := st.schedule.addLesson
                  { subject := subj.name
                    teacher := subj.teacher
                    classOrGroup := classNameOf subj
                    classroom := findClassroom classrooms st.schedule subj best
                    timeSlot := best
                    isEgePractice := false },
                placed := st.placed + 1 } := by
  refine ⟨?_, ?_, ?_, ?_⟩
  · intro egeSlots s subj scored daysUsed hinv
    exact findBestSlot_none_iff hinv
  · intro egeSlots s subj isHard hwf
    exact evaluateAllSlots_scoredInv egeSlots s subj isHard hwf
  · intro egeSlots s subj scored lesson best hinv hname hslot
    exact scoredInv_step lesson best hinv hname hslot
  · intro egeSlots classrooms subj n scored daysUsed st hinv
    exact placeSubjectHours_hour egeSlots classrooms subj n scored daysUsed st hinv

/-- Concrete instantiation of the amended C3 statement: on the empty schedule
the scored list satisfies the invariant, and the failure branch fires for a
subject whose teacher is unavailable every day. -/
theorem c3_amended_witness :
    scoredInv [] (⟨[]⟩ : Schedule) c3Subj
      (evaluateAllSlots [] ⟨[]⟩ c3Subj (isHardSubject c3Subj)) :=
  c3_amended.2.1 [] ⟨[]⟩ c3Subj (isHardSubject c3Subj)
    (fun l hl => absurd hl (List.not_mem_nil l))

end Raspisanie
